/-
  Verification of the qntx/decimal numeric engine.

  Shallow embedding of the Go source (uint128/uint128.go, uint256 package,
  decimal.go) into Lean 4.  Machine words (uint64) are Nat values with
  explicit wraparound `% 2^64`; the 128-bit and 256-bit types are pairs of
  limbs exactly as in the source.  Fallible Go functions return Except;
  functions that can panic (a division intrinsic with a zero or oversized
  divisor, an unbounded loop) return Option, where `none` models the panic
  or a loop that has not exited within the given fuel.
-/
import Mathlib

set_option maxRecDepth 10000

namespace Qntx

/-! ### 64-bit primitives (Go math/bits intrinsics on uint64)

Each models the documented semantics of the Go standard-library function:
`bits.Add64 x y c = (sum mod 2^64, carry)`, `bits.Sub64` with borrow,
`bits.Mul64 x y = (hi, lo)` halves of the product, `bits.Div64 hi lo y`
the quotient/remainder of the 128-bit value by y (panics when `y = 0` or
the quotient overflows, i.e. `y ≤ hi`), and `bits.Len64` the bit length. -/

def W64 : Nat := 2 ^ 64

def W128 : Nat := 2 ^ 128

/-- Go `bits.Add64`: returns (sum mod 2^64, carry out). -/
def add64 (x y c : Nat) : Nat × Nat := ((x + y + c) % W64, (x + y + c) / W64)

/-- Go `bits.Sub64`: returns (difference mod 2^64, borrow out). -/
def sub64 (x y b : Nat) : Nat × Nat :=
  ((x + W64 - (y + b)) % W64, if x < y + b then 1 else 0)

/-- Go `bits.Mul64`: returns (high half, low half) of the full product. -/
def mul64 (x y : Nat) : Nat × Nat := (x * y / W64, x * y % W64)

/-- Go `bits.Div64` (assuming no panic): quotient and remainder of
`hi*2^64 + lo` by `y`. -/
def div64 (hi lo y : Nat) : Nat × Nat :=
  ((hi * W64 + lo) / y, (hi * W64 + lo) % y)

/-- The panic condition of Go `bits.Div64`: divisor zero or quotient
overflowing 64 bits. -/
def div64Panics (hi y : Nat) : Bool := decide (y = 0 ∨ y ≤ hi)

/-- Go `x << n` on uint64 (shift counts ≥ 64 give 0). -/
def shl64 (x n : Nat) : Nat := x * 2 ^ n % W64

/-- Go `x >> n` on uint64. -/
def shr64 (x n : Nat) : Nat := x / 2 ^ n

/-- The bit length of `x`, by fueled binary recursion (correct for
`x < 2^fuel`; `Nat.size` is well-founded and does not reduce). -/
def bitLenFuel : Nat → Nat → Nat
  | 0, _ => 0
  | fuel + 1, x => if x = 0 then 0 else bitLenFuel fuel (x / 2) + 1

/-- Go `bits.Len64` (bit length; 0 for 0). -/
def len64 (x : Nat) : Nat := bitLenFuel 64 x

/-- Go `bits.LeadingZeros64`. -/
def leadingZeros64 (x : Nat) : Nat := 64 - len64 x

/-- Error values of the uint128, uint256 and decimal packages (the code
only ever branches on an error being nil or not, so one inductive serves
all three packages). -/
inductive Err where
  | overflow
  | underflow
  | divideByZero
  | negativeValue
  | valueOverflow
  | precOutOfRange
  | emptyString
  | maxStrLen
  | invalidFormat
  | sqrtNegative
  | zeroPowNegative
  | exponentTooLarge
  | intPartOverflow
  | errOverflow
  | negExponentFastPath
  | sqrtScaleOutOfRange
  | sqrtZeroGuess
deriving DecidableEq, Repr

/-! ### Uint128 (uint128/uint128.go)

A 128-bit unsigned integer as two uint64 limbs.  `Norm` states that both
limbs are in range, which is automatic in Go. -/

structure Uint128 where
  lo : Nat
  hi : Nat
deriving DecidableEq, Repr

namespace Uint128

/-- Go `New(lo, hi)`. -/
def New (lo hi : Nat) : Uint128 := ⟨lo, hi⟩

/-- Go `NewFromUint64`. -/
def NewFromUint64 (v : Nat) : Uint128 := New v 0

def zero : Uint128 := ⟨0, 0⟩

/-- Go `Max = New(math.MaxUint64, math.MaxUint64)`. -/
def Max : Uint128 := New (W64 - 1) (W64 - 1)

/-- The numeric value of a Uint128. -/
def toNat (u : Uint128) : Nat := u.hi * W64 + u.lo

/-- Both limbs in uint64 range (automatic in Go). -/
def Norm (u : Uint128) : Prop := u.lo < W64 ∧ u.hi < W64

instance (u : Uint128) : Decidable u.Norm := by unfold Norm; infer_instance

/-- Go `IsZero`. -/
def IsZero (u : Uint128) : Bool := u == ⟨0, 0⟩

/-- Go `Equals`. -/
def Equals (u v : Uint128) : Bool := u == v

/-- Go `Equals64`. -/
def Equals64 (u : Uint128) (v : Nat) : Bool := u.lo == v && u.hi == 0

/-- Go `Cmp`. -/
def Cmp (u v : Uint128) : Int :=
  if u = v then 0
  else if u.hi < v.hi ∨ (u.hi = v.hi ∧ u.lo < v.lo) then -1
  else 1

/-- Go `Cmp64`. -/
def Cmp64 (u : Uint128) (v : Nat) : Int :=
  if u.hi = 0 ∧ u.lo = v then 0
  else if u.hi = 0 ∧ u.lo < v then -1
  else 1

/-- Go `Lt`. -/
def Lt (u v : Uint128) : Bool := decide (u.hi < v.hi ∨ (u.hi = v.hi ∧ u.lo < v.lo))

/-- Go `Lte`. -/
def Lte (u v : Uint128) : Bool := decide (u.hi < v.hi ∨ (u.hi = v.hi ∧ u.lo ≤ v.lo))

/-- Go `Gt`. -/
def Gt (u v : Uint128) : Bool := decide (u.hi > v.hi ∨ (u.hi = v.hi ∧ u.lo > v.lo))

/-- Go `Gte`. -/
def Gte (u v : Uint128) : Bool := decide (u.hi > v.hi ∨ (u.hi = v.hi ∧ u.lo ≥ v.lo))

/-- Go `And`. -/
def And (u v : Uint128) : Uint128 := ⟨u.lo &&& v.lo, u.hi &&& v.hi⟩

/-- Go `Or`. -/
def Or (u v : Uint128) : Uint128 := ⟨u.lo ||| v.lo, u.hi ||| v.hi⟩

/-- Go `Xor`. -/
def Xor (u v : Uint128) : Uint128 := ⟨u.lo ^^^ v.lo, u.hi ^^^ v.hi⟩

/-- Go `Bit`. -/
def Bit (u : Uint128) (i : Nat) : Nat :=
  if i ≥ 128 then 0
  else if i ≥ 64 then shr64 u.hi (i - 64) &&& 1
  else shr64 u.lo i &&& 1

/-- Go `SetBit`. -/
def SetBit (u : Uint128) (i : Nat) : Uint128 :=
  if i ≥ 128 then u
  else if i ≥ 64 then ⟨u.lo, u.hi ||| shl64 1 (i - 64)⟩
  else ⟨u.lo ||| shl64 1 i, u.hi⟩

/-- Go `Add` (checked). -/
def Add (u v : Uint128) : Except Err Uint128 :=
  let (lo, c) := add64 u.lo v.lo 0
  let (hi, c2) := add64 u.hi v.hi c
  if c2 ≠ 0 then .error .overflow else .ok ⟨lo, hi⟩

/-- Go `AddWrap`. -/
def AddWrap (u v : Uint128) : Uint128 :=
  let (lo, c) := add64 u.lo v.lo 0
  let (hi, _) := add64 u.hi v.hi c
  ⟨lo, hi⟩

/-- Go `Add64` (checked). -/
def Add64 (u : Uint128) (v : Nat) : Except Err Uint128 :=
  let (lo, c) := add64 u.lo v 0
  let (hi, c2) := add64 u.hi 0 c
  if c2 ≠ 0 then .error .overflow else .ok ⟨lo, hi⟩

/-- Go `AddWrap64`. -/
def AddWrap64 (u : Uint128) (v : Nat) : Uint128 :=
  let (lo, c) := add64 u.lo v 0
  ⟨lo, (u.hi + c) % W64⟩

/-- Go `AddCarry`. -/
def AddCarry (u v : Uint128) (carryIn : Nat) : Uint128 × Nat :=
  let (lo, c0) := add64 u.lo v.lo carryIn
  let (hi, carryOut) := add64 u.hi v.hi c0
  (⟨lo, hi⟩, carryOut)

/-- Go `Sub` (checked). -/
def Sub (u v : Uint128) : Except Err Uint128 :=
  let (lo, b) := sub64 u.lo v.lo 0
  let (hi, b2) := sub64 u.hi v.hi b
  if b2 ≠ 0 then .error .underflow else .ok ⟨lo, hi⟩

/-- Go `SubWrap`. -/
def SubWrap (u v : Uint128) : Uint128 :=
  let (lo, b) := sub64 u.lo v.lo 0
  let (hi, _) := sub64 u.hi v.hi b
  ⟨lo, hi⟩

/-- Go `Sub64` (checked). -/
def Sub64 (u : Uint128) (v : Nat) : Except Err Uint128 :=
  let (lo, b) := sub64 u.lo v 0
  let (hi, b2) := sub64 u.hi 0 b
  if b2 ≠ 0 then .error .underflow else .ok ⟨lo, hi⟩

/-- Go `SubWrap64`. -/
def SubWrap64 (u : Uint128) (v : Nat) : Uint128 :=
  let (lo, b) := sub64 u.lo v 0
  ⟨lo, (u.hi + W64 - b) % W64⟩

/-- Go `SubBorrow`. -/
def SubBorrow (u v : Uint128) (borrowIn : Nat) : Uint128 × Nat :=
  let (lo, b0) := sub64 u.lo v.lo borrowIn
  let (hi, borrowOut) := sub64 u.hi v.hi b0
  (⟨lo, hi⟩, borrowOut)

/-- Go `Mul` (checked), translated verbatim: the second `bits.Add64` takes
the first carry `c0` as carry-in while only the second carry `c1` feeds
the overflow test. -/
def Mul (u v : Uint128) : Except Err Uint128 :=
  let (hi0, lo) := mul64 u.lo v.lo
  let (p0, p1) := mul64 u.hi v.lo
  let (p2, p3) := mul64 u.lo v.hi
  let (hi1, c0) := add64 hi0 p1 0
  let (hi2, c1) := add64 hi1 p3 c0
  if (u.hi ≠ 0 ∧ v.hi ≠ 0) ∨ p0 ≠ 0 ∨ p2 ≠ 0 ∨ c1 ≠ 0 then .error .overflow
  else .ok ⟨lo, hi2⟩

/-- Go `MulWrap`. -/
def MulWrap (u v : Uint128) : Uint128 :=
  let (hi0, lo) := mul64 u.lo v.lo
  ⟨lo, (hi0 + (u.hi * v.lo % W64 + u.lo * v.hi % W64) % W64) % W64⟩

/-- Go `Mul64` (checked). -/
def Mul64 (u : Uint128) (v : Nat) : Except Err Uint128 :=
  let (hi0, lo) := mul64 u.lo v
  let (p0, p1) := mul64 u.hi v
  let (hi1, c0) := add64 hi0 p1 0
  if p0 ≠ 0 ∨ c0 ≠ 0 then .error .overflow else .ok ⟨lo, hi1⟩

/-- Go `MulWrap64`. -/
def MulWrap64 (u : Uint128) (v : Nat) : Uint128 :=
  let (hi0, lo) := mul64 u.lo v
  ⟨lo, (hi0 + u.hi * v % W64) % W64⟩

/-- Go `MulFull`: the full 256-bit product as (high, low) 128-bit halves,
translated carry chain by carry chain. -/
def MulFull (u v : Uint128) : Uint128 × Uint128 :=
  let (ulvlh, ulvll) := mul64 u.lo v.lo
  let (uhvlh, uhvll) := mul64 u.hi v.lo
  let (ulvhh, ulvhl) := mul64 u.lo v.hi
  let (uhvhh, uhvhl) := mul64 u.hi v.hi
  let (mid1, carry1) := add64 uhvll ulvhl 0
  let (mid2, carry2) := add64 uhvlh ulvhh carry1
  let (r1, carryMid) := add64 mid1 ulvlh 0
  let loProduct : Uint128 := ⟨ulvll, r1⟩
  let (r2a, ca) := add64 mid2 uhvhl 0
  let (r2b, cb) := add64 r2a carryMid 0
  let (r2c, cc) := add64 r2b carry2 0
  let r3 := (uhvhh + ca + cb + cc) % W64
  (⟨r2c, r3⟩, loProduct)

/-- Go `Lsh`. -/
def Lsh (u : Uint128) (n : Nat) : Uint128 :=
  if n > 64 then ⟨0, shl64 u.lo (n - 64)⟩
  else ⟨shl64 u.lo n, shl64 u.hi n ||| shr64 u.lo (64 - n)⟩

/-- Go `Rsh`. -/
def Rsh (u : Uint128) (n : Nat) : Uint128 :=
  if n > 64 then ⟨shr64 u.hi (n - 64), 0⟩
  else ⟨shr64 u.lo n ||| shl64 u.hi (64 - n), shr64 u.hi n⟩

/-- Go `LeadingZeros`. -/
def LeadingZeros (u : Uint128) : Nat :=
  if u.hi > 0 then leadingZeros64 u.hi else 64 + leadingZeros64 u.lo

/-- Go `BitLen`. -/
def BitLen (u : Uint128) : Nat :=
  if u.hi ≠ 0 then 64 + len64 u.hi else len64 u.lo

/-- Go `QuoRem64`.  Returns `none` when a `bits.Div64` call panics, which
happens exactly for divisor 0. -/
def QuoRem64 (u : Uint128) (v : Nat) : Option (Uint128 × Nat) :=
  if u.hi < v then
    if div64Panics u.hi v then none
    else
      let (qlo, r) := div64 u.hi u.lo v
      some (⟨qlo, 0⟩, r)
  else
    if div64Panics 0 v then none
    else
      let (qhi, r1) := div64 0 u.hi v
      if div64Panics r1 v then none
      else
        let (qlo, r) := div64 r1 u.lo v
        some (⟨qlo, qhi⟩, r)

/-- Go `Div64`. -/
def Div64 (u : Uint128) (v : Nat) : Option Uint128 :=
  (u.QuoRem64 v).map Prod.fst

/-- Go `Mod64`. -/
def Mod64 (u : Uint128) (v : Nat) : Option Nat :=
  (u.QuoRem64 v).map Prod.snd

/-- Go `QuoRem`.  The outer Option models panics propagated from
`bits.Div64` (reachable only with divisor 0); the Except carries the
(in fact unreachable) error returns of the trial-quotient branch. -/
def QuoRem (u v : Uint128) : Option (Except Err (Uint128 × Uint128)) :=
  if v.hi = 0 then
    match u.QuoRem64 v.lo with
    | none => none
    | some (q, r64) => some (.ok (q, NewFromUint64 r64))
  else
    let n := leadingZeros64 v.hi
    let v1 := v.Lsh n
    let u1 := u.Rsh 1
    if div64Panics u1.hi v1.hi then none
    else
      let (tq0, _) := div64 u1.hi u1.lo v1.hi
      let tq1 := shr64 tq0 (63 - n)
      let tq := if tq1 ≠ 0 then tq1 - 1 else tq1
      let q0 := NewFromUint64 tq
      match v.Mul64 tq with
      | .error e => some (.error e)
      | .ok vq =>
        match u.Sub vq with
        | .error e => some (.error e)
        | .ok r0 =>
          if r0.Cmp v ≥ 0 then
            match q0.Add64 1 with
            | .error e => some (.error e)
            | .ok q1 =>
              match r0.Sub v with
              | .error e => some (.error e)
              | .ok r1 => some (.ok (q1, r1))
          else some (.ok (q0, r0))

/-- Go `Div`. -/
def Div (u v : Uint128) : Option (Except Err Uint128) :=
  (u.QuoRem v).map (fun res => res.map Prod.fst)

/-- Go `Mod`. -/
def Mod (u v : Uint128) : Option (Except Err Uint128) :=
  (u.QuoRem v).map (fun res => res.map Prod.snd)

end Uint128

/-! ### Uint256 (uint256 package)

A 256-bit unsigned integer as two Uint128 limbs. -/

structure Uint256 where
  lo : Uint128
  hi : Uint128
deriving DecidableEq, Repr

namespace Uint256

/-- Go `New(lo, hi)`. -/
def New (lo hi : Uint128) : Uint256 := ⟨lo, hi⟩

/-- Go `NewFromUint64`. -/
def NewFromUint64 (v : Nat) : Uint256 := ⟨Uint128.NewFromUint64 v, Uint128.zero⟩

/-- Go `NewFromUint128`. -/
def NewFromUint128 (v : Uint128) : Uint256 := ⟨v, Uint128.zero⟩

def zero : Uint256 := ⟨Uint128.zero, Uint128.zero⟩

def toNat (u : Uint256) : Nat := u.hi.toNat * W128 + u.lo.toNat

def Norm (u : Uint256) : Prop := u.lo.Norm ∧ u.hi.Norm

instance (u : Uint256) : Decidable u.Norm := by unfold Norm; infer_instance

/-- Go `IsZero`. -/
def IsZero (u : Uint256) : Bool := u.lo.IsZero && u.hi.IsZero

/-- Go `Equals`. -/
def Equals (u v : Uint256) : Bool := u.lo.Equals v.lo && u.hi.Equals v.hi

/-- Go `Cmp`. -/
def Cmp (u v : Uint256) : Int :=
  if u.hi.Cmp v.hi ≠ 0 then u.hi.Cmp v.hi else u.lo.Cmp v.lo

/-- Go `Cmp128`. -/
def Cmp128 (u : Uint256) (v : Uint128) : Int :=
  if u.hi.IsZero = false then 1 else u.lo.Cmp v

/-- Go `Lt`. -/
def Lt (u v : Uint256) : Bool :=
  u.hi.Lt v.hi || (u.hi.Equals v.hi && u.lo.Lt v.lo)

/-- Go `Lte`. -/
def Lte (u v : Uint256) : Bool :=
  u.hi.Lt v.hi || (u.hi.Equals v.hi && u.lo.Lte v.lo)

/-- Go `Gt`. -/
def Gt (u v : Uint256) : Bool :=
  u.hi.Gt v.hi || (u.hi.Equals v.hi && u.lo.Gt v.lo)

/-- Go `Gte`. -/
def Gte (u v : Uint256) : Bool :=
  u.hi.Gt v.hi || (u.hi.Equals v.hi && u.lo.Gte v.lo)

/-- Go `Bit`. -/
def Bit (u : Uint256) (i : Nat) : Nat :=
  if i ≥ 256 then 0
  else if i ≥ 128 then u.hi.Bit (i - 128)
  else u.lo.Bit i

/-- Go `SetBit`. -/
def SetBit (u : Uint256) (i : Nat) : Uint256 :=
  if i ≥ 256 then u
  else if i ≥ 128 then ⟨u.lo, u.hi.SetBit (i - 128)⟩
  else ⟨u.lo.SetBit i, u.hi⟩

/-- Go `Add` (checked). -/
def Add (u v : Uint256) : Except Err Uint256 :=
  let (lo, carryLo) := u.lo.AddCarry v.lo 0
  let (hi, carryHi) := u.hi.AddCarry v.hi carryLo
  if carryHi ≠ 0 then .error .overflow else .ok ⟨lo, hi⟩

/-- Go `Sub` (checked). -/
def Sub (u v : Uint256) : Except Err Uint256 :=
  let (lo, borrowLo) := u.lo.SubBorrow v.lo 0
  let (hi, borrowHi) := u.hi.SubBorrow v.hi borrowLo
  if borrowHi ≠ 0 then .error .underflow else .ok ⟨lo, hi⟩

/-- Go `Lsh`. -/
def Lsh (u : Uint256) (n : Nat) : Uint256 :=
  if n ≥ 256 then zero
  else if n ≥ 128 then ⟨Uint128.zero, u.lo.Lsh (n - 128)⟩
  else ⟨u.lo.Lsh n, (u.hi.Lsh n).Or (u.lo.Rsh (128 - n))⟩

/-- Go `Rsh`. -/
def Rsh (u : Uint256) (n : Nat) : Uint256 :=
  if n ≥ 256 then zero
  else if n ≥ 128 then ⟨u.hi.Rsh (n - 128), Uint128.zero⟩
  else ⟨(u.lo.Rsh n).Or (u.hi.Lsh (128 - n)), u.hi.Rsh n⟩

/-- Go `BitLen`. -/
def BitLen (u : Uint256) : Nat :=
  if u.hi.IsZero = false then 128 + u.hi.BitLen else u.lo.BitLen

/-- One iteration of the restoring-division loop of Go `quoRemCore`,
processing bit `i` of the dividend: shift the partial remainder left,
bring down bit `i`, and subtract the divisor when it fits (Go discards
the error of `r.Sub(v)`, which is guarded by `r.Gte(v)`). -/
def quoRemStep (u v : Uint256) (i : Nat) (qr : Uint256 × Uint256) : Uint256 × Uint256 :=
  let r1 := qr.2.Lsh 1
  let r2 := if u.Bit i ≠ 0 then r1.SetBit 0 else r1
  if r2.Gte v then
    let r3 := match r2.Sub v with
      | .ok w => w
      | .error _ => zero
    (qr.1.SetBit i, r3)
  else (qr.1, r2)

/-- The `for i := 255; i >= 0; i--` loop of Go `quoRemCore`: the counter
argument `i+1` processes bit `i` next. -/
def quoRemLoop (u v : Uint256) : Nat → Uint256 × Uint256 → Uint256 × Uint256
  | 0, qr => qr
  | i + 1, qr => quoRemLoop u v i (quoRemStep u v i qr)

/-- Go `quoRemCore`: restoring bit-by-bit division. -/
def quoRemCore (u v : Uint256) : Uint256 × Uint256 :=
  if u.Lt v then (zero, u)
  else quoRemLoop u v 256 (zero, zero)

/-- Go `QuoRem`. -/
def QuoRem (u v : Uint256) : Except Err (Uint256 × Uint256) :=
  if v.IsZero then .error .divideByZero
  else .ok (quoRemCore u v)

/-- Go `Div`. -/
def Div (u v : Uint256) : Except Err Uint256 :=
  if v.IsZero then .error .divideByZero
  else (u.QuoRem v).map Prod.fst

/-- Go `Mod`. -/
def Mod (u v : Uint256) : Except Err Uint256 :=
  if v.IsZero then .error .divideByZero
  else (u.QuoRem v).map Prod.snd

/-- Go `QuoRem128`. -/
def QuoRem128 (u : Uint256) (v : Uint128) : Except Err (Uint256 × Uint128) :=
  if v.IsZero then .error .divideByZero
  else
    let qr := quoRemCore u ⟨v, Uint128.zero⟩
    .ok (qr.1, qr.2.lo)

/-- A Uint256 from a numeric value below 2^256 (used by the modelled
`Pow`). -/
def ofNat (n : Nat) : Uint256 :=
  ⟨⟨n % W64, n / W64 % W64⟩, ⟨n / W128 % W64, n / W128 / W64 % W64⟩⟩

/-- Modelled from the spec: the uint256 `Pow` used by the integer-power
fast path of decimal.go is not part of the provided source (only its
callers are).  Per the spec the 256-bit engine raises the base to the
integer exponent, signalling overflow when an intermediate or final
product exceeds 256 bits. -/
def Pow (u : Uint256) (e : Nat) : Except Err Uint256 :=
  if u.toNat ^ e < 2 ^ 256 then .ok (ofNat (u.toNat ^ e)) else .error .overflow

end Uint256

/-! ### bint: the dual-representation coefficient

Modelled from the spec: the `bint` type itself is not part of the provided
source (decimal.go only uses it).  Per spec section 4.3 a Coefficient is a
tagged union of an exact Word128 and an arbitrary-precision fallback; from
the accesses in decimal.go (`d.coef.bigInt != nil`, `d.coef.u128`) it is a
struct with an optional big integer and a Uint128, where a non-nil big
integer marks the fallback representation.  Every arithmetic method tries
the Word128 fast path and transparently re-executes on the fallback when
an operand is already big or the fast path would overflow; the spec
requires that both representations are numerically interchangeable and
that no path silently loses precision, so the operations below are exact,
promoting to the big representation exactly when the result no longer
fits in 128 bits. -/

structure bint where
  bigInt : Option Nat
  u128 : Uint128
deriving DecidableEq, Repr

/-- Go `bintFromU128`. -/
def bintFromU128 (u : Uint128) : bint := ⟨none, u⟩

/-- Go `bintFromU64`. -/
def bintFromU64 (v : Nat) : bint := ⟨none, Uint128.NewFromUint64 v⟩

/-- Go `bintFromBigInt`. -/
def bintFromBigInt (n : Nat) : bint := ⟨some n, Uint128.zero⟩

/-- A normalized Uint128 from a value below 2^128. -/
def u128OfNat (n : Nat) : Uint128 := ⟨n % W64, n / W64 % W64⟩

/-- The smallest representation of a magnitude: exact Word128 when it
fits, big otherwise (spec 4.3). -/
def bintOfNat (n : Nat) : bint :=
  if n < W128 then bintFromU128 (u128OfNat n) else bintFromBigInt n

namespace bint

/-- The magnitude held by a coefficient. -/
def toNat (b : bint) : Nat :=
  match b.bigInt with
  | some n => n
  | none => b.u128.toNat

/-- Whether the fallback (big) representation is active. -/
def overflow (b : bint) : Bool := b.bigInt.isSome

def IsZero (b : bint) : Bool := b.toNat == 0

/-- Modelled from the spec: exact addition; result stays on the Word128
fast path iff both operands are exact and the sum fits. -/
def Add (x y : bint) : bint :=
  if x.overflow || y.overflow then bintFromBigInt (x.toNat + y.toNat)
  else bintOfNat (x.toNat + y.toNat)

/-- Modelled from the spec: exact subtraction with an underflow signal. -/
def Sub (x y : bint) : Except Err bint :=
  if y.toNat ≤ x.toNat then
    if x.overflow || y.overflow then .ok (bintFromBigInt (x.toNat - y.toNat))
    else .ok (bintOfNat (x.toNat - y.toNat))
  else .error .underflow

/-- Modelled from the spec: exact multiplication; promotes to the big
representation when the product exceeds 128 bits. -/
def Mul (x y : bint) : bint :=
  if x.overflow || y.overflow then bintFromBigInt (x.toNat * y.toNat)
  else bintOfNat (x.toNat * y.toNat)

/-- Modelled from the spec: comparison is representation-independent. -/
def Cmp (x y : bint) : Int :=
  if x.toNat < y.toNat then -1 else if x.toNat = y.toNat then 0 else 1

def GT (x y : bint) : Bool := decide (x.toNat > y.toNat)

/-- Go `GetBig`: the magnitude as a big integer. -/
def GetBig (b : bint) : Nat := b.toNat

/-- `Sub` with the error discarded, as in the Go call sites
`coef, _ := dcoef.Sub(ecoef)` that are guarded by a comparison. -/
def subD (x y : bint) : bint :=
  match x.Sub y with
  | .ok v => v
  | .error _ => bintFromU128 Uint128.zero

end bint

/-! ### Decimal (decimal.go) -/

/-- The precomputed `pow10` table: entry i is 10^i as a Uint128
(the source lists the 39 constants 10^0 .. 10^38 explicitly). -/
def pow10 (i : Nat) : Uint128 := ⟨10 ^ i % W64, 10 ^ i / W64⟩

/-- The precomputed `pow10Big` table (10^0 .. 10^19 as big integers). -/
def pow10Big (i : Nat) : Nat := 10 ^ i

/-- `defaultPrec`: the package default precision (19, never changed here;
spec section 5 directs modelling it as a configuration constant). -/
def defaultPrec : Nat := 19

/-- `maxPrec`. -/
def maxPrec : Nat := 19

structure Decimal where
  coef : bint
  neg : Bool
  prec : Nat
deriving DecidableEq, Repr

namespace Decimal

/-- Go `Zero = Decimal{}`. -/
def Zero : Decimal := ⟨⟨none, Uint128.zero⟩, false, 0⟩

/-- Go `One = MustFromInt64(1, 0)`. -/
def One : Decimal := ⟨bintFromU64 1, false, 0⟩

/-- Go `newDecimal`: the single canonicalizing constructor. -/
def newDecimal (neg : Bool) (coef : bint) (prec : Nat) : Decimal :=
  if coef.IsZero then Zero else ⟨coef, neg, prec⟩

/-- Go `NewFromHiLo`. -/
def NewFromHiLo (neg : Bool) (hi lo : Nat) (prec : Nat) : Except Err Decimal :=
  if prec > defaultPrec then .error .precOutOfRange
  else .ok (newDecimal neg (bintFromU128 (Uint128.New lo hi)) prec)

/-- Go `NewFromUint64`. -/
def NewFromUint64 (coef : Nat) (prec : Nat) : Except Err Decimal :=
  if prec > defaultPrec then .error .precOutOfRange
  else .ok (newDecimal false (bintFromU64 coef) prec)

/-- Go `NewFromInt64` (the sign-magnitude split `coef = -coef` is `natAbs`). -/
def NewFromInt64 (coef : Int) (prec : Nat) : Except Err Decimal :=
  if prec > defaultPrec then .error .precOutOfRange
  else .ok (newDecimal (decide (coef < 0)) (bintFromU64 coef.natAbs) prec)

/-- Go `Add`. -/
def Add (d e : Decimal) : Decimal :=
  let t : Nat × bint × bint :=
    if d.prec = e.prec then (d.prec, d.coef, e.coef)
    else if d.prec > e.prec then
      (d.prec, d.coef, e.coef.Mul (bintFromU128 (pow10 (d.prec - e.prec))))
    else
      (e.prec, d.coef.Mul (bintFromU128 (pow10 (e.prec - d.prec))), e.coef)
  let prec := t.1
  let dcoef := t.2.1
  let ecoef := t.2.2
  if d.neg = e.neg then newDecimal d.neg (dcoef.Add ecoef) prec
  else if dcoef.Cmp ecoef = 1 then newDecimal d.neg (dcoef.subD ecoef) prec
  else newDecimal e.neg (ecoef.subD dcoef) prec

/-- Go `Sub`. -/
def Sub (d e : Decimal) : Decimal :=
  let t : Nat × bint × bint :=
    if d.prec = e.prec then (d.prec, d.coef, e.coef)
    else if d.prec > e.prec then
      (d.prec, d.coef, e.coef.Mul (bintFromU128 (pow10 (d.prec - e.prec))))
    else
      (e.prec, d.coef.Mul (bintFromU128 (pow10 (e.prec - d.prec))), e.coef)
  let prec := t.1
  let dcoef := t.2.1
  let ecoef := t.2.2
  if d.neg ≠ e.neg then newDecimal d.neg (dcoef.Add ecoef) prec
  else if dcoef.Cmp ecoef = 1 then newDecimal d.neg (dcoef.subD ecoef) prec
  else newDecimal (!d.neg) (ecoef.subD dcoef) prec

/-- Go `tryMulU128`. -/
def tryMulU128 (d e : Decimal) (neg : Bool) (prec : Nat) : Except Err Decimal :=
  if d.coef.overflow || e.coef.overflow then .error .errOverflow
  else
    let prod := d.coef.u128.MulFull e.coef.u128
    if prec ≤ defaultPrec then
      if prod.1.IsZero = false then .error .errOverflow
      else .ok (newDecimal neg (bintFromU128 prod.2) prec)
    else
      let r256 := Uint256.New prod.2 prod.1
      let divisor256 := Uint256.NewFromUint128 (pow10 (prec - defaultPrec))
      match r256.QuoRem divisor256 with
      | .error e => .error e
      | .ok (q256, _) =>
        if q256.hi.IsZero = false then .error .errOverflow
        else .ok (newDecimal neg (bintFromU128 q256.lo) defaultPrec)

/-- Go `Mul` (the fallback block after `tryMulU128` fails). -/
def Mul (d e : Decimal) : Decimal :=
  let prec := d.prec + e.prec
  let neg := d.neg != e.neg
  match tryMulU128 d e neg prec with
  | .ok v => v
  | .error _ =>
    let dBig := d.coef.GetBig * e.coef.GetBig
    if prec ≤ defaultPrec then newDecimal neg (bintFromBigInt dBig) prec
    else
      let q := dBig / (pow10 (prec - defaultPrec)).toNat
      newDecimal neg (bintFromBigInt q) defaultPrec

/-- Go `tryDivU128`.  The scale factor `defaultPrec - (d.prec - e.prec)`
is computed in wrapping uint8 arithmetic in Go; for the reachable
precisions (≤ 19) it equals `defaultPrec + e.prec - d.prec`. -/
def tryDivU128 (d e : Decimal) (neg : Bool) : Except Err Decimal :=
  if d.coef.overflow || e.coef.overflow then .error .errOverflow
  else
    let factor := defaultPrec + e.prec - d.prec
    let prod := d.coef.u128.MulFull (pow10 factor)
    let dividend256 := Uint256.New prod.2 prod.1
    let divisorU128 := e.coef.u128
    if divisorU128.IsZero then .error .divideByZero
    else
      match dividend256.QuoRem (Uint256.NewFromUint128 divisorU128) with
      | .error err => .error err
      | .ok (q256, _) =>
        if q256.hi.IsZero = false then .error .errOverflow
        else .ok (newDecimal neg (bintFromU128 q256.lo) defaultPrec)

/-- Go `Div`. -/
def Div (d e : Decimal) : Except Err Decimal :=
  if e.coef.IsZero then .error .divideByZero
  else
    let neg := d.neg != e.neg
    match tryDivU128 d e neg with
    | .ok q => .ok q
    | .error _ =>
      let factor := defaultPrec + e.prec - d.prec
      let dBig := d.coef.GetBig * pow10Big factor
      let q := dBig / e.coef.GetBig
      .ok (newDecimal neg (bintFromBigInt q) defaultPrec)

/-- Go `tryQuoRemU128`. -/
def tryQuoRemU128 (d e : Decimal) : Except Err (Decimal × Decimal) :=
  if d.coef.overflow || e.coef.overflow then .error .errOverflow
  else
    let body : Except Err (Nat × Uint256 × Uint128) :=
      if d.prec = e.prec then
        .ok (d.prec, Uint256.NewFromUint128 d.coef.u128, e.coef.u128)
      else
        let factor := max d.prec e.prec
        let scaleByD := pow10 (factor - d.prec)
        let prodD := d.coef.u128.MulFull scaleByD
        let dividend256 := Uint256.New prodD.2 prodD.1
        let scaleByE := pow10 (factor - e.prec)
        match e.coef.u128.Mul scaleByE with
        | .error err => .error err
        | .ok divisorU128 => .ok (factor, dividend256, divisorU128)
    match body with
    | .error err => .error err
    | .ok (factor, dividend256, divisorU128) =>
      if divisorU128.IsZero then .error .divideByZero
      else
        match dividend256.QuoRem (Uint256.NewFromUint128 divisorU128) with
        | .error err => .error err
        | .ok (q256, r256) =>
          if q256.hi.IsZero = false ∨ r256.hi.IsZero = false then .error .errOverflow
          else
            let q := newDecimal (d.neg != e.neg) (bintFromU128 q256.lo) 0
            let r := newDecimal d.neg (bintFromU128 r256.lo) factor
            .ok (q, r)

/-- The big-integer fallback block of Go `QuoRem` (the code executed when
`tryQuoRemU128` signals overflow). -/
def quoRemBig (d e : Decimal) : Decimal × Decimal :=
  let factor := max d.prec e.prec
  let dBig := d.coef.GetBig * pow10Big (factor - d.prec)
  let eBig := e.coef.GetBig * pow10Big (factor - e.prec)
  let qBig := dBig / eBig
  let rBig := dBig % eBig
  (newDecimal (d.neg != e.neg) (bintFromBigInt qBig) 0,
   newDecimal d.neg (bintFromBigInt rBig) factor)

/-- Go `QuoRem`. -/
def QuoRem (d e : Decimal) : Except Err (Decimal × Decimal) :=
  if e.coef.IsZero then .error .divideByZero
  else
    match tryQuoRemU128 d e with
    | .ok qr => .ok qr
    | .error _ => .ok (quoRemBig d e)

/-- Go `Mod`. -/
def Mod (d e : Decimal) : Except Err Decimal :=
  (d.QuoRem e).map Prod.snd

/-- Go `tryCmpU128`. -/
def tryCmpU128 (d e : Decimal) : Except Err Int :=
  if d.coef.overflow || e.coef.overflow then .error .errOverflow
  else if d.prec = e.prec then .ok (d.coef.u128.Cmp e.coef.u128)
  else if d.prec < e.prec then
    let scaleFactor := pow10 (e.prec - d.prec)
    let prodD := d.coef.u128.MulFull scaleFactor
    .ok ((Uint256.New prodD.2 prodD.1).Cmp128 e.coef.u128)
  else
    let scaleFactor := pow10 (d.prec - e.prec)
    let prodE := e.coef.u128.MulFull scaleFactor
    .ok (-(Uint256.New prodE.2 prodE.1).Cmp128 d.coef.u128)

/-- Go `big.Int.Cmp` on the non-negative magnitudes. -/
def cmpBig (a b : Nat) : Int :=
  if a < b then -1 else if a = b then 0 else 1

/-- Go `cmpDecSameSign`. -/
def cmpDecSameSign (d e : Decimal) : Int :=
  match tryCmpU128 d e with
  | .ok result => result
  | .error _ =>
    let dBig := d.coef.GetBig
    let eBig := e.coef.GetBig
    if d.prec = e.prec then cmpBig dBig eBig
    else if d.prec < e.prec then
      cmpBig (dBig * pow10Big (e.prec - d.prec)) eBig
    else
      cmpBig dBig (eBig * pow10Big (d.prec - e.prec))

/-- Go `Cmp`. -/
def Cmp (d e : Decimal) : Int :=
  if d.neg ∧ ¬e.neg then -1
  else if ¬d.neg ∧ e.neg then 1
  else if d.neg then -(d.cmpDecSameSign e)
  else d.cmpDecSameSign e

/-- Go `Equal`. -/
def Equal (d e : Decimal) : Bool := decide (d.Cmp e = 0)

/-- Go `Sign`. -/
def Sign (d : Decimal) : Int :=
  if d.coef.IsZero then 0 else if d.neg then -1 else 1

/-- Go `IsZero`. -/
def IsZero (d : Decimal) : Bool := d.coef.IsZero

/-- Go `Neg`. -/
def Neg (d : Decimal) : Decimal := newDecimal (!d.neg) d.coef d.prec

/-- Go `Abs`. -/
def Abs (d : Decimal) : Decimal := newDecimal false d.coef d.prec

/-- `Uint128.QuoRem64` at a call site whose divisor is nonzero (so the Go
panic cannot fire); the default is never taken there. -/
def quoRem64D (u : Uint128) (v : Nat) : Uint128 × Nat :=
  (u.QuoRem64 v).getD (Uint128.zero, 0)

/-- `Uint128.QuoRem` at a call site that discards the error
(`coef, _, _ := ...`) and whose divisor is a nonzero power of ten. -/
def quoRemD (u v : Uint128) : Uint128 × Uint128 :=
  match u.QuoRem v with
  | some (.ok qr) => qr
  | _ => (Uint128.zero, Uint128.zero)

/-- Go `RoundBank` (half to even).  The fast path falls through to the
big-integer path when `Add64` overflows, as in the source; `none` from
`QuoRem64` (a Go panic, unreachable for the representable precisions)
also falls through. -/
def RoundBank (d : Decimal) (prec : Nat) : Decimal :=
  if prec ≥ d.prec then d
  else
    let factor := pow10 (d.prec - prec)
    let lo := factor.lo / 2
    let fast : Option Decimal :=
      if d.coef.overflow then none
      else
        match d.coef.u128.QuoRem64 factor.lo with
        | none => none
        | some (q, r) =>
          if lo < r ∨ (lo = r ∧ q.lo % 2 = 1) then
            match q.Add64 1 with
            | .ok q2 => some (newDecimal d.neg (bintFromU128 q2) prec)
            | .error _ => none
          else some (newDecimal d.neg (bintFromU128 q) prec)
    match fast with
    | some v => v
    | none =>
      let dBig := d.coef.GetBig
      let q := dBig / factor.toNat
      let r := dBig % factor.toNat
      let q2 := if lo < r ∨ (r = lo ∧ q % 2 = 1) then q + 1 else q
      newDecimal d.neg (bintFromBigInt q2) prec

/-- Go `RoundAwayFromZero`. -/
def RoundAwayFromZero (d : Decimal) (prec : Nat) : Decimal :=
  if prec ≥ d.prec then d
  else
    let factor := pow10 (d.prec - prec)
    let fast : Option Decimal :=
      if d.coef.overflow then none
      else
        match d.coef.u128.QuoRem64 factor.lo with
        | none => none
        | some (q, r) =>
          if r ≠ 0 then
            match q.Add64 1 with
            | .ok q2 => some (newDecimal d.neg (bintFromU128 q2) prec)
            | .error _ => none
          else some (newDecimal d.neg (bintFromU128 q) prec)
    match fast with
    | some v => v
    | none =>
      let dBig := d.coef.GetBig
      let q := dBig / factor.toNat
      let r := dBig % factor.toNat
      let q2 := if r ≠ 0 then q + 1 else q
      newDecimal d.neg (bintFromBigInt q2) prec

/-- Go `RoundHAZ` (half away from zero). -/
def RoundHAZ (d : Decimal) (prec : Nat) : Decimal :=
  if prec ≥ d.prec then d
  else
    let factor := pow10 (d.prec - prec)
    let half := (quoRem64D factor 2).1
    let fast : Option Decimal :=
      if d.coef.overflow then none
      else
        match d.coef.u128.QuoRem64 factor.lo with
        | none => none
        | some (q, r) =>
          if half.Cmp64 r ≤ 0 then
            match q.Add64 1 with
            | .ok q2 => some (newDecimal d.neg (bintFromU128 q2) prec)
            | .error _ => none
          else some (newDecimal d.neg (bintFromU128 q) prec)
    match fast with
    | some v => v
    | none =>
      let dBig := d.coef.GetBig
      let q := dBig / factor.toNat
      let r := dBig % factor.toNat
      let q2 := if r ≥ half.toNat then q + 1 else q
      newDecimal d.neg (bintFromBigInt q2) prec

/-- Go `RoundHTZ` (half toward zero). -/
def RoundHTZ (d : Decimal) (prec : Nat) : Decimal :=
  if prec ≥ d.prec then d
  else
    let factor := pow10 (d.prec - prec)
    let half := (quoRem64D factor 2).1
    let fast : Option Decimal :=
      if d.coef.overflow then none
      else
        match d.coef.u128.QuoRem64 factor.lo with
        | none => none
        | some (q, r) =>
          if half.Cmp64 r < 0 then
            match q.Add64 1 with
            | .ok q2 => some (newDecimal d.neg (bintFromU128 q2) prec)
            | .error _ => none
          else some (newDecimal d.neg (bintFromU128 q) prec)
    match fast with
    | some v => v
    | none =>
      let dBig := d.coef.GetBig
      let q := dBig / factor.toNat
      let r := dBig % factor.toNat
      let q2 := if r > half.toNat then q + 1 else q
      newDecimal d.neg (bintFromBigInt q2) prec

/-- Go `Floor`. -/
def Floor (d : Decimal) : Decimal :=
  if d.prec = 0 then d
  else
    let factor := pow10 d.prec
    let fast : Option Decimal :=
      if d.coef.overflow then none
      else
        match d.coef.u128.QuoRem64 factor.lo with
        | none => none
        | some (q, r) =>
          if d.neg ∧ r ≠ 0 then
            match q.Add64 1 with
            | .ok q2 => some (newDecimal d.neg (bintFromU128 q2) 0)
            | .error _ => none
          else some (newDecimal d.neg (bintFromU128 q) 0)
    match fast with
    | some v => v
    | none =>
      let dBig := d.coef.GetBig
      let q := dBig / factor.toNat
      let r := dBig % factor.toNat
      let q2 := if d.neg ∧ r ≠ 0 then q + 1 else q
      newDecimal d.neg (bintFromBigInt q2) 0

/-- Go `Ceil`. -/
def Ceil (d : Decimal) : Decimal :=
  if d.prec = 0 then d
  else
    let factor := pow10 d.prec
    let fast : Option Decimal :=
      if d.coef.overflow then none
      else
        match d.coef.u128.QuoRem64 factor.lo with
        | none => none
        | some (q, r) =>
          if ¬d.neg ∧ r ≠ 0 then
            match q.Add64 1 with
            | .ok q2 => some (newDecimal d.neg (bintFromU128 q2) 0)
            | .error _ => none
          else some (newDecimal d.neg (bintFromU128 q) 0)
    match fast with
    | some v => v
    | none =>
      let dBig := d.coef.GetBig
      let q := dBig / factor.toNat
      let r := dBig % factor.toNat
      let q2 := if ¬d.neg ∧ r ≠ 0 then q + 1 else q
      newDecimal d.neg (bintFromBigInt q2) 0

/-- Go `Trunc`. -/
def Trunc (d : Decimal) (prec : Nat) : Decimal :=
  if prec ≥ d.prec then d
  else
    let factor := pow10 (d.prec - prec)
    if d.coef.overflow then
      newDecimal d.neg (bintFromBigInt (d.coef.GetBig / factor.toNat)) prec
    else
      match d.coef.u128.QuoRem64 factor.lo with
      | none => Zero
      | some (q, _) => newDecimal d.neg (bintFromU128 q) prec

/-- Go `trailingZerosBigInt` (chunked divisibility probing). -/
def trailingZerosBigInt (n : Nat) : Nat :=
  if n % pow10Big 16 = 0 then
    let z1 := 16
    let z2 := if n % pow10Big (z1 + 2) = 0 then z1 + 2 else z1
    if n % pow10Big (z2 + 1) = 0 then z2 + 1 else z2
  else
    let z1 := if n % pow10Big 8 = 0 then 8 else 0
    let z2 := if n % pow10Big (z1 + 4) = 0 then z1 + 4 else z1
    let z3 := if n % pow10Big (z2 + 2) = 0 then z2 + 2 else z2
    if n % pow10Big (z3 + 1) = 0 then z3 + 1 else z3

/-- Go `trailingZerosU128` (binary search over chunk sizes 16, 8, 4, 2,
1; the divisors are the low limbs of the pow10 table, all nonzero). -/
def trailingZerosU128 (n : Uint128) : Nat :=
  if (quoRem64D n (pow10 16).lo).2 = 0 then
    let z1 := 16
    let z2 := if (quoRem64D n (pow10 (z1 + 2)).lo).2 = 0 then z1 + 2 else z1
    if (quoRem64D n (pow10 (z2 + 1)).lo).2 = 0 then z2 + 1 else z2
  else
    let z1 := if (quoRem64D n (pow10 8).lo).2 = 0 then 8 else 0
    let z2 := if (quoRem64D n (pow10 (z1 + 4)).lo).2 = 0 then z1 + 4 else z1
    let z3 := if (quoRem64D n (pow10 (z2 + 2)).lo).2 = 0 then z2 + 2 else z2
    if (quoRem64D n (pow10 (z3 + 1)).lo).2 = 0 then z3 + 1 else z3

/-- Go `trimTrailingZeros`.  In the non-overflow branch with a nonzero
zero count the source updates the struct fields directly instead of
calling `newDecimal`. -/
def trimTrailingZeros (d : Decimal) : Decimal :=
  if d.coef.overflow then
    let zeros := trailingZerosBigInt d.coef.GetBig
    let dBig := d.coef.GetBig
    if zeros = 0 then newDecimal d.neg (bintFromBigInt dBig) d.prec
    else if zeros ≥ d.prec then
      newDecimal d.neg (bintFromBigInt (dBig / pow10Big d.prec)) 0
    else
      newDecimal d.neg (bintFromBigInt (dBig / pow10Big zeros)) (d.prec - zeros)
  else
    let zeros := trailingZerosU128 d.coef.u128
    if zeros = 0 then newDecimal d.neg (bintFromU128 d.coef.u128) d.prec
    else if zeros ≥ d.prec then
      ⟨bintFromU128 (quoRemD d.coef.u128 (pow10 d.prec)).1, d.neg, 0⟩
    else
      ⟨bintFromU128 (quoRemD d.coef.u128 (pow10 zeros)).1, d.neg, d.prec - zeros⟩

/-- Go `rescale` (private; used for display): deliberately bypasses
`newDecimal` so a zero can carry a nonzero precision for `StringFixed`. -/
def rescale (d : Decimal) (prec : Nat) : Decimal :=
  let dTrim := d.trimTrailingZeros
  let prec2 := if prec > maxPrec then maxPrec else prec
  if prec2 ≤ dTrim.prec then dTrim
  else
    let diff := prec2 - dTrim.prec
    let coef := dTrim.coef.Mul (bintFromU128 (pow10 diff))
    ⟨coef, dTrim.neg, prec2⟩

/-- Go `tryPowIntU128`. -/
def tryPowIntU128 (d : Decimal) (e : Int) : Except Err Decimal :=
  if d.coef.overflow then .error .errOverflow
  else if e = 0 then .ok One
  else if e = 1 then .ok d
  else if e < 0 then .error .negExponentFastPath
  else
    let en := e.toNat
    if d.coef.u128.hi ≠ 0 ∧ en ≥ 4 then .error .errOverflow
    else
      let neg := if e % 2 = 0 then false else d.neg
      let exponentPrec := d.prec * en
      if exponentPrec > defaultPrec + 38 then .error .errOverflow
      else
        match (Uint256.NewFromUint128 d.coef.u128).Pow en with
        | .error err => .error err
        | .ok result256 =>
          if exponentPrec ≤ defaultPrec then
            if result256.hi.IsZero = false then .error .errOverflow
            else .ok (newDecimal neg (bintFromU128 result256.lo) exponentPrec)
          else
            let divisor256 := Uint256.NewFromUint128 (pow10 (exponentPrec - defaultPrec))
            if divisor256.IsZero then .error .divideByZero
            else
              match result256.QuoRem divisor256 with
              | .error err => .error err
              | .ok (q256, _) =>
                if q256.hi.IsZero = false then .error .errOverflow
                else .ok (newDecimal neg (bintFromU128 q256.lo) defaultPrec)

/-- Go `tryInversePowIntU128`.  The exponent is a positive integer at
every call site, so it is taken as Nat (the source's `e < 0` branch is
unreachable).  `none` from the 128-bit `QuoRem` would be a Go panic,
unreachable because the denominator is checked nonzero. -/
def tryInversePowIntU128 (d : Decimal) (e : Nat) : Except Err Decimal :=
  if d.coef.overflow then .error .errOverflow
  else if e = 0 then
    if d.coef.IsZero then .error .divideByZero else .ok One
  else if d.coef.u128.hi ≠ 0 ∧ e ≥ 4 then .error .errOverflow
  else
    let neg := if e % 2 = 0 then false else d.neg
    let exponentNumerator := d.prec * e + defaultPrec
    if exponentNumerator > 76 then .error .errOverflow
    else
      match (Uint256.NewFromUint128 d.coef.u128).Pow e with
      | .error err => .error err
      | .ok denom256 =>
        if denom256.hi.IsZero = false then .error .errOverflow
        else
          let denom128 := denom256.lo
          if denom128.IsZero then .error .divideByZero
          else if exponentNumerator ≤ 38 then
            match (pow10 exponentNumerator).QuoRem denom128 with
            | some (.ok (q, _)) => .ok (newDecimal neg (bintFromU128 q) defaultPrec)
            | some (.error err) => .error err
            | none => .error .divideByZero
          else
            let term1 := pow10 (exponentNumerator - 38)
            let term2 := pow10 38
            let prodN := term1.MulFull term2
            let numerator256 := Uint256.New prodN.2 prodN.1
            match numerator256.QuoRem (Uint256.NewFromUint128 denom128) with
            | .error err => .error err
            | .ok (q256, _) =>
              if q256.hi.IsZero = false then .error .errOverflow
              else .ok (newDecimal neg (bintFromU128 q256.lo) defaultPrec)

/-- Go `powIntInverse` (d^(-e) for e > 0).  The big-integer fallback
divides 10^(d.prec*e + defaultPrec) by d.coef^e (nonzero at every call
site). -/
def powIntInverse (d : Decimal) (e : Nat) : Decimal :=
  match d.tryInversePowIntU128 e with
  | .ok q => q
  | .error _ =>
    let powPrecision := d.prec * e
    let m := 10 ^ (powPrecision + defaultPrec)
    let qBig := m / d.coef.GetBig ^ e
    let neg := if e % 2 = 0 then false else d.neg
    newDecimal neg (bintFromBigInt qBig) defaultPrec

/-- Go `PowInt` (deprecated variant: a zero base yields Zero for every
exponent, as its documentation states). -/
def PowInt (d : Decimal) (e : Int) : Decimal :=
  if d.coef.IsZero then Zero
  else if e = 0 then One
  else if e = 1 then d
  else
    let dTrim := d.trimTrailingZeros
    if e < 0 then dTrim.powIntInverse (-e).toNat
    else
      match dTrim.tryPowIntU128 e with
      | .ok q => q
      | .error _ =>
        let en := e.toNat
        let pp0 := dTrim.prec * en
        let fp : Nat × Nat :=
          if pp0 ≥ defaultPrec then (pp0 - defaultPrec, defaultPrec) else (0, pp0)
        let qBig := dTrim.coef.GetBig ^ en / 10 ^ fp.1
        let neg := if e % 2 = 0 then false else d.neg
        newDecimal neg (bintFromBigInt qBig) fp.2

/-- Go `PowInt32` (0^0 = 1; zero base with negative exponent errors). -/
def PowInt32 (d : Decimal) (e : Int) : Except Err Decimal :=
  if d.coef.IsZero ∧ e < 0 then .error .zeroPowNegative
  else if e = 0 then .ok One
  else if e = 1 then .ok d
  else
    let dTrim := d.trimTrailingZeros
    if e < 0 then .ok (dTrim.powIntInverse (-e).toNat)
    else
      match dTrim.tryPowIntU128 e with
      | .ok q => .ok q
      | .error _ =>
        let en := e.toNat
        let pp0 := dTrim.prec * en
        let fp : Nat × Nat :=
          if pp0 ≥ defaultPrec then (pp0 - defaultPrec, defaultPrec) else (0, pp0)
        let qBig := dTrim.coef.GetBig ^ en / 10 ^ fp.1
        let neg := if e % 2 = 0 then false else d.neg
        .ok (newDecimal neg (bintFromBigInt qBig) fp.2)

/-- Go `PowToIntPart`: raises d to the truncated integer part of e.  The
zero-base/negative-exponent check reads the raw sign flag of e before
truncation. -/
def PowToIntPart (d e : Decimal) : Except Err Decimal :=
  if d.coef.IsZero ∧ e.neg then .error .zeroPowNegative
  else
    let eInt := e.Trunc 0
    if eInt.coef.overflow ∨ eInt.coef.u128.Cmp64 2147483647 > 0 then
      .error .exponentTooLarge
    else
      let exponent : Int := (eInt.coef.u128.lo : Int)
      d.PowInt32 (if eInt.neg then -exponent else exponent)

/-- The outcome of one pass of the Newton-Raphson loop body in Go
`sqrtU128`. -/
inductive SqrtStepOut where
  | exitErr (e : Err)
  | exitOk (x : Uint128)
  | cont (x : Uint128)
deriving DecidableEq, Repr

/-- One pass of the `for` loop body of Go `sqrtU128`: divide the scaled
coefficient by the current estimate in 256-bit space, average, and stop
at a fixed point (`x1 == x`). -/
def sqrtStep (scaledCoef256 : Uint256) (x : Uint128) : SqrtStepOut :=
  if x.IsZero then .exitErr .sqrtZeroGuess
  else
    match scaledCoef256.QuoRem (Uint256.NewFromUint128 x) with
    | .error e => .exitErr e
    | .ok (y256, _) =>
      if y256.hi.IsZero = false then .exitErr .errOverflow
      else
        let y := y256.lo
        let sc := x.AddCarry y 0
        if sc.2 ≠ 0 then .exitErr .errOverflow
        else
          let x1 := sc.1.Rsh 1
          if x1.Cmp x = 0 then .exitOk x1 else .cont x1

/-- The Newton-Raphson loop of Go `sqrtU128`, with fuel.  `none` means
the loop has not exited within `fuel` iterations (the Go loop is
unbounded). -/
def sqrtLoop (scaledCoef256 : Uint256) : Nat → Uint128 → Option (Except Err Uint128)
  | 0, _ => none
  | fuel + 1, x =>
    match sqrtStep scaledCoef256 x with
    | .exitErr e => some (.error e)
    | .exitOk v => some (.ok v)
    | .cont x1 => sqrtLoop scaledCoef256 fuel x1

/-- Go `sqrtU128`, with fuel for the Newton-Raphson loop. -/
def sqrtU128 (d : Decimal) (fuel : Nat) : Option (Except Err Decimal) :=
  let factor : Int := 2 * (defaultPrec : Int) - (d.prec : Int)
  if factor < 0 ∨ factor ≥ 39 then some (.error .sqrtScaleOutOfRange)
  else
    let scaleVal := pow10 factor.toNat
    let prod := d.coef.u128.MulFull scaleVal
    let scaledCoef256 := Uint256.New prod.2 prod.1
    if scaledCoef256.hi.hi ≠ 0 then some (.error .errOverflow)
    else
      let bitLen := scaledCoef256.BitLen
      if bitLen = 0 then some (.ok Zero)
      else
        let shiftAmount := (bitLen + 1) / 2
        let x0 : Uint128 :=
          if shiftAmount ≥ 128 then
            if shiftAmount > 127 then Uint128.Max
            else (Uint128.New 1 0).Lsh shiftAmount
          else (Uint128.New 1 0).Lsh shiftAmount
        match sqrtLoop scaledCoef256 fuel x0 with
        | none => none
        | some (.error e) => some (.error e)
        | some (.ok x) => some (.ok (newDecimal false (bintFromU128 x) defaultPrec))

/-- Go `Sqrt`, with fuel for the internal Newton-Raphson loop; `none`
means the 128-bit path has not exited its loop within the fuel. -/
def Sqrt (d : Decimal) (fuel : Nat) : Option (Except Err Decimal) :=
  if d.neg then some (.error .sqrtNegative)
  else if d.coef.IsZero then some (.ok Zero)
  else if d.Cmp One = 0 then some (.ok One)
  else
    let big : Except Err Decimal :=
      let factor := 2 * defaultPrec - d.prec
      let coef := d.coef.GetBig * pow10Big factor
      .ok (newDecimal false (bintFromBigInt (Nat.sqrt coef)) defaultPrec)
    if d.coef.overflow then some big
    else
      match sqrtU128 d fuel with
      | none => none
      | some (.ok q) => some (.ok q)
      | some (.error _) => some big

end Decimal

/-! ### Parsing

Modelled from the spec: `parseBint` (and the byte-level helpers of the
parser) are not part of the provided source; decimal.go only calls them.
Per the spec the grammar is `[+-]?digits(.digits)?` with no scientific
notation, at most 19 fractional digits, an input cap of 200 characters,
and distinct errors for empty input, excessive length, malformed format
and excessive fractional digits. -/

def digitVal (c : Char) : Option Nat :=
  if '0' ≤ c ∧ c ≤ '9' then some (c.toNat - '0'.toNat) else none

def digitsToNatAux : List Char → Nat → Option Nat
  | [], acc => some acc
  | c :: rest, acc =>
    match digitVal c with
    | some v => digitsToNatAux rest (acc * 10 + v)
    | none => none

/-- Modelled from the spec: parse a sign, an integer digit run and an
optional fractional digit run into (negative?, coefficient, scale). -/
def parseBint (b : List Char) : Except Err (Bool × bint × Nat) :=
  if b = [] then .error .emptyString
  else if b.length > 200 then .error .maxStrLen
  else
    let sr : Bool × List Char :=
      match b with
      | '-' :: r => (true, r)
      | '+' :: r => (false, r)
      | r => (false, r)
    let neg := sr.1
    let rest := sr.2
    let intPart := rest.takeWhile (fun c => c ≠ '.')
    match rest.dropWhile (fun c => c ≠ '.') with
    | [] =>
      if intPart = [] then .error .invalidFormat
      else
        match digitsToNatAux intPart 0 with
        | none => .error .invalidFormat
        | some v => .ok (neg, bintOfNat v, 0)
    | _ :: frac =>
      if intPart = [] ∨ frac = [] then .error .invalidFormat
      else if frac.length > defaultPrec then .error .precOutOfRange
      else
        match digitsToNatAux intPart 0, digitsToNatAux frac 0 with
        | some iv, some fv =>
          .ok (neg, bintOfNat (iv * 10 ^ frac.length + fv), frac.length)
        | _, _ => .error .invalidFormat

/-- Go `parseBytes`: every parse result is canonicalized by `newDecimal`. -/
def parseBytes (b : List Char) : Except Err Decimal :=
  (parseBint b).map (fun t => Decimal.newDecimal t.1 t.2.1 t.2.2)

/-- Go `Parse`. -/
def Parse (s : String) : Except Err Decimal := parseBytes s.data

/-! ### Verification-side definitions -/

namespace Decimal

/-- The rational value represented by a Decimal:
`(-1)^neg * coefficient / 10^prec`. -/
def val (d : Decimal) : ℚ :=
  (if d.neg then -1 else 1) * (d.coef.toNat : ℚ) / 10 ^ d.prec

/-- The canonical-zero invariant of the spec: a zero coefficient forces a
positive sign and zero precision. -/
def Canonical (d : Decimal) : Prop :=
  d.coef.toNat = 0 → d.neg = false ∧ d.prec = 0

instance (d : Decimal) : Decidable d.Canonical := by unfold Canonical; infer_instance

/-- Well-formedness of a reachable Decimal: in-range limbs, precision at
most 19, canonical zero. -/
def WF (d : Decimal) : Prop :=
  d.coef.u128.Norm ∧ d.prec ≤ maxPrec ∧ d.Canonical

instance (d : Decimal) : Decidable d.WF := by unfold WF; infer_instance

end Decimal

/-- The dividend of the QuoRem divergence: 10^38 / 10^19 = 10^19. -/
def quoRemBugD : Decimal := ⟨bintFromU128 (pow10 38), false, 19⟩

/-- The divisor of the QuoRem divergence: the integer
2^64 + 15600000000000000000; its coefficient scaled by 10^19 overflows
128 bits in a way the checked `Uint128.Mul` fails to detect. -/
def quoRemBugE : Decimal := ⟨bintFromU128 ⟨15600000000000000000, 1⟩, false, 0⟩

/-- The Sqrt non-termination input: 0.9999999999999999998
(coefficient 10^19 - 2 at precision 19). -/
def sqrtBadInput : Decimal := ⟨bintFromU64 9999999999999999998, false, 19⟩

/-- The scaled magnitude `sqrtU128` computes for `sqrtBadInput`:
(10^19 - 2) * 10^19, which is (10^19 - 1)^2 - 1. -/
def sqrtBadScaled : Uint256 := Uint256.ofNat ((10 ^ 19 - 2) * 10 ^ 19)

/-- The values the Newton-Raphson estimate takes on `sqrtBadScaled`,
starting from the initial guess 2^64: after six strictly decreasing steps
the orbit closes into the 2-cycle {10^19 - 1, 10^19 - 2}, and the loop
can never exit (the only exit test is x1 = x). -/
def sqrtBadOrbit : List Nat :=
  [18446744073709551616, 11933877468068536892, 10156691824241952094,
   10001208677402501737, 10000000073036225441, 10000000000000000265,
   9999999999999999999, 9999999999999999998]

/-! ## Theorems -/

/-! ### Arithmetic facts about the word size -/

theorem W64_eq : W64 = 18446744073709551616 := by norm_num [W64]

theorem W128_eq : W128 = 340282366920938463463374607431768211456 := by
  norm_num [W128]

theorem W64_pos : 0 < W64 := by norm_num [W64]

theorem W64_mul_W64 : W64 * W64 = W128 := by norm_num [W64, W128]

/-- Splitting a two-limb division by a small divisor: the schoolbook
identity behind `QuoRem64`. -/
theorem div_two_limbs (a l v w : Nat) (hv : 0 < v) :
    (a * w + l) / v = a / v * w + (a % v * w + l) / v ∧
    (a * w + l) % v = (a % v * w + l) % v := by
  have e : a * w + l = v * (a / v * w) + (a % v * w + l) := by
    calc a * w + l = (v * (a / v) + a % v) * w + l := by rw [Nat.div_add_mod]
    _ = v * (a / v * w) + (a % v * w + l) := by ring
  constructor
  · rw [e, Nat.mul_add_div hv]
  · rw [e, Nat.mul_add_mod]

namespace Uint128

theorem norm_iff {u : Uint128} :
    u.Norm ↔ u.lo < 18446744073709551616 ∧ u.hi < 18446744073709551616 := by
  rw [Norm, W64_eq]

theorem toNat_eq (u : Uint128) :
    u.toNat = u.hi * 18446744073709551616 + u.lo := by
  rw [toNat, W64_eq]

theorem toNat_lt {u : Uint128} (h : u.Norm) : u.toNat < W128 := by
  obtain ⟨h1, h2⟩ := norm_iff.mp h
  rw [toNat_eq, W128_eq]
  omega

theorem toNat_inj {u v : Uint128} (hu : u.Norm) (hv : v.Norm)
    (h : u.toNat = v.toNat) : u = v := by
  obtain ⟨h1, h2⟩ := norm_iff.mp hu
  obtain ⟨h3, h4⟩ := norm_iff.mp hv
  obtain ⟨ulo, uhi⟩ := u
  obtain ⟨vlo, vhi⟩ := v
  rw [toNat_eq, toNat_eq] at h
  simp only at h1 h2 h3 h4 h
  simp only [Uint128.mk.injEq]
  omega

/-- `Cmp` decides the numeric order of normalized values. -/
theorem cmp_spec {u v : Uint128} (hu : u.Norm) (hv : v.Norm) :
    u.Cmp v = Decimal.cmpBig u.toNat v.toNat := by
  obtain ⟨h1, h2⟩ := norm_iff.mp hu
  obtain ⟨h3, h4⟩ := norm_iff.mp hv
  unfold Cmp Decimal.cmpBig
  rcases Nat.lt_trichotomy u.toNat v.toNat with h | h | h
  · have hne : u ≠ v := fun he => by subst he; omega
    have hlt : u.hi < v.hi ∨ (u.hi = v.hi ∧ u.lo < v.lo) := by
      rw [toNat_eq, toNat_eq] at h
      omega
    simp [hne, hlt, h]
  · have he : u = v := toNat_inj hu hv h
    subst he
    simp
  · have hne : u ≠ v := fun he => by subst he; omega
    have hnlt : ¬(u.hi < v.hi ∨ (u.hi = v.hi ∧ u.lo < v.lo)) := by
      rw [toNat_eq, toNat_eq] at h
      omega
    have hx1 : ¬(u.toNat < v.toNat) := by omega
    have hx2 : ¬(u.toNat = v.toNat) := by omega
    simp [hne, hnlt, hx1, hx2]

/-- `QuoRem64` with divisor 0 models the Go `bits.Div64` panic. -/
theorem quoRem64_zero (u : Uint128) : u.QuoRem64 0 = none := by
  simp [QuoRem64, div64Panics]

/-- `QuoRem64` with a nonzero in-range divisor is total and returns the
true quotient and remainder. -/
theorem quoRem64_spec (u : Uint128) (v : Nat) (hu : u.Norm) (hv1 : 0 < v)
    (hv2 : v < W64) :
    ∃ q, u.QuoRem64 v = some (q, u.toNat % v) ∧ q.toNat = u.toNat / v ∧ q.Norm := by
  obtain ⟨h1, h2⟩ := hu
  unfold QuoRem64 div64 div64Panics
  by_cases hc : u.hi < v
  · have hnp : decide (v = 0 ∨ v ≤ u.hi) = false := by
      simp only [decide_eq_false_iff_not, not_or]
      omega
    have hq : (u.hi * W64 + u.lo) / v < W64 := by
      have hlt : u.hi * W64 + u.lo < v * W64 := by
        have hle : u.hi + 1 ≤ v := hc
        calc u.hi * W64 + u.lo < u.hi * W64 + W64 := by omega
        _ = (u.hi + 1) * W64 := by ring
        _ ≤ v * W64 := Nat.mul_le_mul_right _ hle
      exact Nat.div_lt_of_lt_mul hlt
    refine ⟨⟨(u.hi * W64 + u.lo) / v, 0⟩, ?_, ?_, ?_⟩
    · rw [if_pos hc]
      simp only [hnp, Bool.false_eq_true, if_false, toNat]
    · rw [toNat, toNat, Nat.zero_mul, Nat.zero_add]
    · exact ⟨hq, W64_pos⟩
  · have hnp : decide (v = 0 ∨ v ≤ 0) = false := by
      simp only [decide_eq_false_iff_not, not_or]
      omega
    have hr1 : u.hi % v < v := Nat.mod_lt _ hv1
    have hnp2 : decide (v = 0 ∨ v ≤ u.hi % v) = false := by
      simp only [decide_eq_false_iff_not, not_or]
      omega
    have hqlo : (u.hi % v * W64 + u.lo) / v < W64 := by
      have hlt : u.hi % v * W64 + u.lo < v * W64 := by
        have hle : u.hi % v + 1 ≤ v := hr1
        calc u.hi % v * W64 + u.lo < u.hi % v * W64 + W64 := by omega
        _ = (u.hi % v + 1) * W64 := by ring
        _ ≤ v * W64 := Nat.mul_le_mul_right _ hle
      exact Nat.div_lt_of_lt_mul hlt
    obtain ⟨hdiv, hmod⟩ := div_two_limbs u.hi u.lo v W64 hv1
    refine ⟨⟨(u.hi % v * W64 + u.lo) / v, (0 * W64 + u.hi) / v⟩, ?_, ?_, ?_⟩
    · rw [if_neg hc]
      simp only [hnp, Bool.false_eq_true, if_false, Nat.zero_mul, Nat.zero_add,
        hnp2, toNat]
      rw [hmod]
    · rw [toNat, toNat, Nat.zero_mul, Nat.zero_add]
      rw [hdiv]
    · constructor
      · exact hqlo
      · have : u.hi / v ≤ u.hi := Nat.div_le_self _ _
        simp only [Nat.zero_mul, Nat.zero_add]
        omega

theorem quoRem_zero_divisor (u v : Uint128) (h : v.toNat = 0) :
    u.QuoRem v = none := by
  have hlo : v.lo = 0 ∧ v.hi = 0 := by
    rw [toNat_eq] at h
    omega
  unfold QuoRem
  rw [if_pos hlo.2, hlo.1, quoRem64_zero]

end Uint128

/-! ### C10: zero-divisor behaviour of the 64-bit division variants -/

/-- C10 counterexample: the claim asserts that the full-width `QuoRem`
(unlike the 64-bit variants) returns an error value for a zero divisor;
in fact it delegates to `QuoRem64`, whose inner `bits.Div64` panics
(modelled as `none`), so no error value is ever returned. -/
theorem C10_counterexample :
    (Uint128.New 5 7).QuoRem (Uint128.New 0 0) = none := by rfl

/-- C10 (amended): `QuoRem64`, `Div64` and `Mod64` have no zero-divisor
guard and panic inside `bits.Div64` on divisor 0 — and so do the
full-width `QuoRem`, `Div` and `Mod`, which delegate to `QuoRem64`
without any guard of their own; for every nonzero divisor the 64-bit
variants are total and return the true quotient and remainder. -/
theorem C10_division_by_zero_panics :
    (∀ u : Uint128, u.QuoRem64 0 = none ∧ u.Div64 0 = none ∧ u.Mod64 0 = none) ∧
    (∀ u v : Uint128, v.toNat = 0 →
      u.QuoRem v = none ∧ u.Div v = none ∧ u.Mod v = none) ∧
    (∀ u : Uint128, ∀ v : Nat, u.Norm → 0 < v → v < W64 →
      ∃ q, u.QuoRem64 v = some (q, u.toNat % v) ∧ q.toNat = u.toNat / v ∧
        u.Div64 v = some q ∧ u.Mod64 v = some (u.toNat % v)) := by
  refine ⟨?_, ?_, ?_⟩
  · intro u
    refine ⟨Uint128.quoRem64_zero u, ?_, ?_⟩
    · unfold Uint128.Div64
      rw [Uint128.quoRem64_zero]
      rfl
    · unfold Uint128.Mod64
      rw [Uint128.quoRem64_zero]
      rfl
  · intro u v h
    refine ⟨Uint128.quoRem_zero_divisor u v h, ?_, ?_⟩
    · unfold Uint128.Div
      rw [Uint128.quoRem_zero_divisor u v h]
      rfl
    · unfold Uint128.Mod
      rw [Uint128.quoRem_zero_divisor u v h]
      rfl
  · intro u v hu hv1 hv2
    obtain ⟨q, hq, hqv, hqn⟩ := Uint128.quoRem64_spec u v hu hv1 hv2
    refine ⟨q, hq, hqv, ?_, ?_⟩
    · unfold Uint128.Div64
      rw [hq]
      rfl
    · unfold Uint128.Mod64
      rw [hq]
      rfl

/-- C10 witness: the amended theorem applied at divisor 0 (the panic) and
at the concrete division (2^64·7 + 5) by 29. -/
theorem C10_witness :
    ((Uint128.New 5 7).QuoRem (Uint128.New 0 0) = none ∧
      (Uint128.New 5 7).Div (Uint128.New 0 0) = none ∧
      (Uint128.New 5 7).Mod (Uint128.New 0 0) = none) ∧
    ∃ q, (Uint128.New 5 7).QuoRem64 29 = some (q, (Uint128.New 5 7).toNat % 29) ∧
      q.toNat = (Uint128.New 5 7).toNat / 29 ∧
      (Uint128.New 5 7).Div64 29 = some q ∧
      (Uint128.New 5 7).Mod64 29 = some ((Uint128.New 5 7).toNat % 29) :=
  ⟨C10_division_by_zero_panics.2.1 (Uint128.New 5 7) (Uint128.New 0 0) (by decide),
   C10_division_by_zero_panics.2.2 (Uint128.New 5 7) 29 (by decide) (by decide)
     (by decide)⟩

/-! ### C2: wrapping vs checked arithmetic on Uint128 -/

/-- C2: the claim that the checked operations error exactly when the
unbounded result leaves [0, 2^128) fails for `Mul`: for
u = 2^65 - 1 and v = 2^64 - 1 the product is at least 2^128, yet `Mul`
returns a (wrong) value with no error — the second carry chain passes the
first carry `c0` into the sum instead of into the overflow test. -/
theorem C2_checked_mul_misses_overflow :
    Uint128.Mul (Uint128.New (W64 - 1) 1) (Uint128.New (W64 - 1) 0) =
      .ok (Uint128.New 1 (W64 - 2)) ∧
    W128 ≤ (Uint128.New (W64 - 1) 1).toNat * (Uint128.New (W64 - 1) 0).toNat ∧
    (Uint128.New 1 (W64 - 2)).toNat ≠
      (Uint128.New (W64 - 1) 1).toNat * (Uint128.New (W64 - 1) 0).toNat % W128 := by
  refine ⟨by rfl, by decide, by decide⟩

/-! ### Disjoint-or and limb arithmetic helpers -/

theorem or_two_pow_of_bit_zero (a j : Nat) (h : a / 2 ^ j % 2 = 0) :
    a ||| 2 ^ j = a + 2 ^ j := by
  have hpos : 0 < (2 : Nat) ^ j := Nat.pos_pow_of_pos _ (by omega)
  have hpow : (2 : Nat) ^ (j + 1) = 2 ^ j * 2 := by rw [pow_succ]
  have hrj : a % 2 ^ (j + 1) < 2 ^ j := by
    rw [Nat.mod_pow_succ, h, Nat.mul_zero, Nat.add_zero]
    exact Nat.mod_lt _ hpos
  have hr2 : a % 2 ^ (j + 1) < 2 ^ (j + 1) := by omega
  have hqr : 2 ^ (j + 1) * (a / 2 ^ (j + 1)) + a % 2 ^ (j + 1) = a :=
    Nat.div_add_mod a (2 ^ (j + 1))
  have e3 : a % 2 ^ (j + 1) ||| 2 ^ j = 2 ^ j + a % 2 ^ (j + 1) := by
    rw [Nat.or_comm]
    have e := Nat.mul_add_lt_is_or hrj 1
    rw [Nat.mul_one] at e
    exact e.symm
  have e4 : 2 ^ (j + 1) * (a / 2 ^ (j + 1)) ||| (2 ^ j + a % 2 ^ (j + 1)) =
      2 ^ (j + 1) * (a / 2 ^ (j + 1)) + (2 ^ j + a % 2 ^ (j + 1)) := by
    have hb : 2 ^ j + a % 2 ^ (j + 1) < 2 ^ (j + 1) := by omega
    exact (Nat.mul_add_lt_is_or hb _).symm
  calc a ||| 2 ^ j
      = (2 ^ (j + 1) * (a / 2 ^ (j + 1)) + a % 2 ^ (j + 1)) ||| 2 ^ j := by rw [hqr]
  _ = (2 ^ (j + 1) * (a / 2 ^ (j + 1)) ||| a % 2 ^ (j + 1)) ||| 2 ^ j := by
        rw [← Nat.mul_add_lt_is_or hr2]
  _ = 2 ^ (j + 1) * (a / 2 ^ (j + 1)) ||| (a % 2 ^ (j + 1) ||| 2 ^ j) :=
        Nat.or_assoc _ _ _
  _ = 2 ^ (j + 1) * (a / 2 ^ (j + 1)) ||| (2 ^ j + a % 2 ^ (j + 1)) := by rw [e3]
  _ = 2 ^ (j + 1) * (a / 2 ^ (j + 1)) + (2 ^ j + a % 2 ^ (j + 1)) := e4
  _ = a + 2 ^ j := by omega

/-- Bit i of a two-limb number, low case. -/
theorem limb_bit_low (a l K i : Nat) (hi : i < K) :
    (a * 2 ^ K + l) / 2 ^ i % 2 = l / 2 ^ i % 2 := by
  have hsplit : (2 : Nat) ^ K = 2 ^ i * 2 ^ (K - i) := by
    rw [← pow_add]
    congr 1
    omega
  have hK1 : 1 ≤ K - i := by omega
  have e : a * 2 ^ K + l = 2 ^ i * (a * 2 ^ (K - i)) + l := by
    rw [hsplit]
    ring
  rw [e, Nat.mul_add_div (Nat.pos_pow_of_pos _ (by omega))]
  have e2 : a * 2 ^ (K - i) = a * 2 ^ (K - i - 1) * 2 := by
    have : (2 : Nat) ^ (K - i) = 2 ^ (K - i - 1) * 2 := by
      rw [← pow_succ]
      congr 1
      omega
    rw [this]
    ring
  rw [e2, Nat.add_comm, Nat.add_mul_mod_self_right]

/-- Division of a two-limb number by a power of two at or above the limb
boundary. -/
theorem limb_div_high (a l K i : Nat) (hK : K ≤ i) (hl : l < 2 ^ K) :
    (a * 2 ^ K + l) / 2 ^ i = a / 2 ^ (i - K) := by
  have hsplit : (2 : Nat) ^ i = 2 ^ K * 2 ^ (i - K) := by
    rw [← pow_add]
    congr 1
    omega
  rw [hsplit, ← Nat.div_div_eq_div_mul]
  congr 1
  rw [Nat.mul_comm a, Nat.mul_add_div (Nat.pos_pow_of_pos _ (by omega)),
    Nat.div_eq_of_lt hl]
  omega

namespace Uint128

theorem bit_spec (u : Uint128) (j : Nat) (hu : u.Norm) (hj : j < 128) :
    u.Bit j = u.toNat / 2 ^ j % 2 := by
  obtain ⟨h1, h2⟩ := norm_iff.mp hu
  unfold Bit shr64
  rw [toNat_eq]
  by_cases hc : j ≥ 64
  · rw [if_neg (by omega), if_pos hc, Nat.and_one_is_mod]
    have : u.hi * 18446744073709551616 + u.lo = u.hi * 2 ^ 64 + u.lo := by norm_num
    rw [this, limb_div_high u.hi u.lo 64 j (by omega) (by omega)]
  · rw [if_neg (by omega), if_neg hc, Nat.and_one_is_mod]
    have : u.hi * 18446744073709551616 + u.lo = u.hi * 2 ^ 64 + u.lo := by norm_num
    rw [this, limb_bit_low u.hi u.lo 64 j (by omega)]

theorem setBit_spec (u : Uint128) (j : Nat) (hu : u.Norm) (hj : j < 128)
    (hb : u.toNat / 2 ^ j % 2 = 0) :
    (u.SetBit j).toNat = u.toNat + 2 ^ j ∧ (u.SetBit j).Norm := by
  obtain ⟨h1, h2⟩ := norm_iff.mp hu
  have hW : (18446744073709551616 : Nat) = 2 ^ 64 := by norm_num
  unfold SetBit shl64
  by_cases hc : j ≥ 64
  · rw [if_neg (by omega), if_pos hc]
    have hjlt : (2 : Nat) ^ (j - 64) < 2 ^ 64 :=
      Nat.pow_lt_pow_right (by omega) (by omega)
    have hj2 : (1 : Nat) * 2 ^ (j - 64) % W64 = 2 ^ (j - 64) := by
      rw [Nat.one_mul, W64_eq, hW]
      exact Nat.mod_eq_of_lt hjlt
    have hbit : u.hi / 2 ^ (j - 64) % 2 = 0 := by
      rw [toNat_eq, hW] at hb
      rw [← limb_div_high u.hi u.lo 64 j (by omega) (by omega)]
      exact hb
    have hor := or_two_pow_of_bit_zero u.hi (j - 64) hbit
    have hlt : u.hi ||| 2 ^ (j - 64) < 2 ^ 64 := Nat.or_lt_two_pow (by omega) hjlt
    refine ⟨?_, norm_iff.mpr ⟨?_, ?_⟩⟩
    · rw [toNat_eq, toNat_eq]
      simp only [hj2, hor]
      have hsplit : (2 : Nat) ^ j = 2 ^ (j - 64) * 18446744073709551616 := by
        rw [hW, ← pow_add]
        congr 1
        omega
      rw [hsplit]
      ring
    · exact h1
    · simp only [hj2]
      rw [hW]
      exact hlt
  · rw [if_neg (by omega), if_neg hc]
    have hjlt : (2 : Nat) ^ j < 2 ^ 64 := Nat.pow_lt_pow_right (by omega) (by omega)
    have hj2 : (1 : Nat) * 2 ^ j % W64 = 2 ^ j := by
      rw [Nat.one_mul, W64_eq, hW]
      exact Nat.mod_eq_of_lt hjlt
    have hbit : u.lo / 2 ^ j % 2 = 0 := by
      rw [toNat_eq, hW] at hb
      rw [← limb_bit_low u.hi u.lo 64 j (by omega)]
      exact hb
    have hor := or_two_pow_of_bit_zero u.lo j hbit
    have hlt : u.lo ||| 2 ^ j < 2 ^ 64 := Nat.or_lt_two_pow (by omega) hjlt
    refine ⟨?_, norm_iff.mpr ⟨?_, ?_⟩⟩
    · rw [toNat_eq, toNat_eq]
      simp only [hj2, hor]
      ring
    · simp only [hj2]
      rw [hW]
      exact hlt
    · exact h2

end Uint128

namespace Uint128

theorem lt_iff {u v : Uint128} (hu : u.Norm) (hv : v.Norm) :
    u.Lt v = true ↔ u.toNat < v.toNat := by
  obtain ⟨h1, h2⟩ := norm_iff.mp hu
  obtain ⟨h3, h4⟩ := norm_iff.mp hv
  unfold Lt
  rw [decide_eq_true_eq, toNat_eq, toNat_eq]
  omega

theorem gt_iff {u v : Uint128} (hu : u.Norm) (hv : v.Norm) :
    u.Gt v = true ↔ v.toNat < u.toNat := by
  obtain ⟨h1, h2⟩ := norm_iff.mp hu
  obtain ⟨h3, h4⟩ := norm_iff.mp hv
  unfold Gt
  rw [decide_eq_true_eq, toNat_eq, toNat_eq]
  omega

theorem lte_iff {u v : Uint128} (hu : u.Norm) (hv : v.Norm) :
    u.Lte v = true ↔ u.toNat ≤ v.toNat := by
  obtain ⟨h1, h2⟩ := norm_iff.mp hu
  obtain ⟨h3, h4⟩ := norm_iff.mp hv
  unfold Lte
  rw [decide_eq_true_eq, toNat_eq, toNat_eq]
  omega

theorem gte_iff {u v : Uint128} (hu : u.Norm) (hv : v.Norm) :
    u.Gte v = true ↔ v.toNat ≤ u.toNat := by
  obtain ⟨h1, h2⟩ := norm_iff.mp hu
  obtain ⟨h3, h4⟩ := norm_iff.mp hv
  unfold Gte
  rw [decide_eq_true_eq, toNat_eq, toNat_eq]
  omega

theorem eq_of_limbs {u v : Uint128} (h1 : u.lo = v.lo) (h2 : u.hi = v.hi) :
    u = v := by
  obtain ⟨a, b⟩ := u
  obtain ⟨c, d⟩ := v
  simp_all

theorem isZero_iff (u : Uint128) : u.IsZero = true ↔ u.toNat = 0 := by
  unfold IsZero
  rw [beq_iff_eq, toNat_eq]
  constructor
  · intro h
    rw [h]
    simp
  · intro h
    exact eq_of_limbs (show u.lo = 0 by omega) (show u.hi = 0 by omega)

theorem equals_iff (u v : Uint128) : u.Equals v = true ↔ u = v := by
  unfold Equals
  exact beq_iff_eq

end Uint128

namespace Uint256

theorem norm_iff256 {u : Uint256} :
    u.Norm ↔ u.lo.lo < 18446744073709551616 ∧ u.lo.hi < 18446744073709551616 ∧
      u.hi.lo < 18446744073709551616 ∧ u.hi.hi < 18446744073709551616 := by
  unfold Norm Uint128.Norm
  rw [W64_eq]
  tauto

theorem toNat_limbs (u : Uint256) :
    u.toNat = u.hi.hi * 6277101735386680763835789423207666416102355444464034512896 +
      u.hi.lo * 340282366920938463463374607431768211456 +
      u.lo.hi * 18446744073709551616 + u.lo.lo := by
  unfold toNat Uint128.toNat
  rw [W64_eq, W128_eq]
  ring

theorem toNat_lt256 {u : Uint256} (h : u.Norm) :
    u.toNat < 2 ^ 256 := by
  obtain ⟨h1, h2, h3, h4⟩ := norm_iff256.mp h
  rw [toNat_limbs]
  norm_num
  omega

theorem isZero_iff256 (u : Uint256) : u.IsZero = true ↔ u.toNat = 0 := by
  unfold IsZero
  rw [Bool.and_eq_true, Uint128.isZero_iff, Uint128.isZero_iff, toNat_limbs,
    Uint128.toNat_eq, Uint128.toNat_eq]
  omega

theorem lt_iff256 {u v : Uint256} (hu : u.Norm) (hv : v.Norm) :
    u.Lt v = true ↔ u.toNat < v.toNat := by
  obtain ⟨hu1, hu2⟩ := hu
  obtain ⟨hv1, hv2⟩ := hv
  unfold Lt
  rw [Bool.or_eq_true, Bool.and_eq_true, Uint128.lt_iff hu2 hv2,
    Uint128.equals_iff, Uint128.lt_iff hu1 hv1]
  obtain ⟨ha, hb⟩ := Uint128.norm_iff.mp hu1
  obtain ⟨hc, hd⟩ := Uint128.norm_iff.mp hu2
  obtain ⟨he, hf⟩ := Uint128.norm_iff.mp hv1
  obtain ⟨hg, hh⟩ := Uint128.norm_iff.mp hv2
  constructor
  · intro h
    rw [toNat_limbs, toNat_limbs]
    rcases h with h | ⟨h1, h2⟩
    · rw [Uint128.toNat_eq, Uint128.toNat_eq] at h
      omega
    · rw [Uint128.toNat_eq, Uint128.toNat_eq] at h2
      rw [h1]
      omega
  · intro h
    rw [toNat_limbs, toNat_limbs] at h
    by_cases he2 : u.hi = v.hi
    · right
      refine ⟨he2, ?_⟩
      rw [Uint128.toNat_eq, Uint128.toNat_eq]
      rw [he2] at h
      omega
    · left
      rw [Uint128.toNat_eq, Uint128.toNat_eq]
      have : u.hi.lo ≠ v.hi.lo ∨ u.hi.hi ≠ v.hi.hi := by
        by_contra hcon
        push_neg at hcon
        exact he2 (Uint128.eq_of_limbs hcon.1 hcon.2)
      omega

theorem gte_iff256 {u v : Uint256} (hu : u.Norm) (hv : v.Norm) :
    u.Gte v = true ↔ v.toNat ≤ u.toNat := by
  obtain ⟨hu1, hu2⟩ := hu
  obtain ⟨hv1, hv2⟩ := hv
  unfold Gte
  rw [Bool.or_eq_true, Bool.and_eq_true, Uint128.gt_iff hu2 hv2,
    Uint128.equals_iff, Uint128.gte_iff hu1 hv1]
  obtain ⟨ha, hb⟩ := Uint128.norm_iff.mp hu1
  obtain ⟨hc, hd⟩ := Uint128.norm_iff.mp hu2
  obtain ⟨he, hf⟩ := Uint128.norm_iff.mp hv1
  obtain ⟨hg, hh⟩ := Uint128.norm_iff.mp hv2
  constructor
  · intro h
    rw [toNat_limbs, toNat_limbs]
    rcases h with h | ⟨h1, h2⟩
    · rw [Uint128.toNat_eq, Uint128.toNat_eq] at h
      omega
    · rw [Uint128.toNat_eq, Uint128.toNat_eq] at h2
      rw [h1]
      omega
  · intro h
    rw [toNat_limbs, toNat_limbs] at h
    by_cases he2 : u.hi = v.hi
    · right
      refine ⟨he2, ?_⟩
      rw [Uint128.toNat_eq, Uint128.toNat_eq]
      rw [he2] at h
      omega
    · left
      rw [Uint128.toNat_eq, Uint128.toNat_eq]
      have : u.hi.lo ≠ v.hi.lo ∨ u.hi.hi ≠ v.hi.hi := by
        by_contra hcon
        push_neg at hcon
        exact he2 (Uint128.eq_of_limbs hcon.1 hcon.2)
      omega

theorem sub_spec (u v : Uint256) (hu : u.Norm) (hv : v.Norm)
    (h : v.toNat ≤ u.toNat) :
    ∃ w, u.Sub v = .ok w ∧ w.toNat = u.toNat - v.toNat ∧ w.Norm := by
  obtain ⟨⟨ull, ulh⟩, ⟨uhl, uhh⟩⟩ := u
  obtain ⟨⟨vll, vlh⟩, ⟨vhl, vhh⟩⟩ := v
  obtain ⟨h1, h2, h3, h4⟩ := norm_iff256.mp hu
  obtain ⟨h5, h6, h7, h8⟩ := norm_iff256.mp hv
  simp only at h1 h2 h3 h4 h5 h6 h7 h8
  rw [toNat_limbs, toNat_limbs] at h
  simp only at h
  simp only [Sub, Uint128.SubBorrow, sub64, W64_eq]
  split_ifs with b1 b2 b3 b4 b5 b6 b7 b8 <;>
    first
      | (exfalso; omega)
      | (refine ⟨_, rfl, ?_, ?_⟩
         · rw [toNat_limbs, toNat_limbs, toNat_limbs]
           simp only
           omega
         · rw [norm_iff256]
           simp only
           omega)

theorem bit_spec256 (u : Uint256) (i : Nat) (hu : u.Norm) (hi : i < 256) :
    u.Bit i = u.toNat / 2 ^ i % 2 := by
  obtain ⟨hlo, hhi⟩ := hu
  have hl128 : u.lo.toNat < 2 ^ 128 := by
    have := Uint128.toNat_lt hlo
    rwa [W128] at this
  unfold Bit
  by_cases hc : i ≥ 128
  · rw [if_neg (by omega), if_pos hc, Uint128.bit_spec u.hi (i - 128) hhi (by omega)]
    unfold toNat
    simp only [W128]
    rw [limb_div_high u.hi.toNat u.lo.toNat 128 i hc hl128]
  · rw [if_neg (by omega), if_neg hc, Uint128.bit_spec u.lo i hlo (by omega)]
    unfold toNat
    simp only [W128]
    rw [limb_bit_low u.hi.toNat u.lo.toNat 128 i (by omega)]

theorem setBit_spec256 (u : Uint256) (i : Nat) (hu : u.Norm) (hi : i < 256)
    (hb : u.toNat / 2 ^ i % 2 = 0) :
    (u.SetBit i).toNat = u.toNat + 2 ^ i ∧ (u.SetBit i).Norm := by
  obtain ⟨hlo, hhi⟩ := hu
  have hl128 : u.lo.toNat < 2 ^ 128 := by
    have := Uint128.toNat_lt hlo
    rwa [W128] at this
  unfold toNat at hb ⊢
  simp only [W128] at hb ⊢
  unfold SetBit
  by_cases hc : i ≥ 128
  · rw [if_neg (by omega), if_pos hc]
    have hb2 : u.hi.toNat / 2 ^ (i - 128) % 2 = 0 := by
      rw [← limb_div_high u.hi.toNat u.lo.toNat 128 i hc hl128]
      exact hb
    obtain ⟨e, n⟩ := Uint128.setBit_spec u.hi (i - 128) hhi (by omega) hb2
    refine ⟨?_, hlo, n⟩
    show (u.hi.SetBit (i - 128)).toNat * 2 ^ 128 + u.lo.toNat = _
    rw [e]
    have hsplit : (2 : Nat) ^ i = 2 ^ (i - 128) * 2 ^ 128 := by
      rw [← pow_add]
      congr 1
      omega
    rw [hsplit]
    ring
  · rw [if_neg (by omega), if_neg hc]
    have hb2 : u.lo.toNat / 2 ^ i % 2 = 0 := by
      rw [← limb_bit_low u.hi.toNat u.lo.toNat 128 i (by omega)]
      exact hb
    obtain ⟨e, n⟩ := Uint128.setBit_spec u.lo i hlo (by omega) hb2
    refine ⟨?_, n, hhi⟩
    show u.hi.toNat * 2 ^ 128 + (u.lo.SetBit i).toNat = _
    rw [e]
    ring

theorem shl1_or_shr63 (x y : Nat) (hy : y < W64) :
    shl64 x 1 ||| shr64 y 63 = x * 2 % W64 + y / 9223372036854775808 := by
  have e1 : shl64 x 1 = 2 ^ 1 * (x % 9223372036854775808) := by
    unfold shl64
    rw [W64_eq]
    norm_num
    omega
  have hb : shr64 y 63 < 2 ^ 1 := by
    unfold shr64
    rw [W64_eq] at hy
    norm_num
    omega
  rw [e1, ← Nat.mul_add_lt_is_or hb]
  unfold shr64
  rw [W64_eq]
  norm_num
  omega

theorem lsh_one_spec (u : Uint256) (hu : u.Norm) (hov : u.toNat * 2 < 2 ^ 256) :
    (u.Lsh 1).toNat = u.toNat * 2 ∧ (u.Lsh 1).Norm := by
  obtain ⟨hl, hh⟩ := hu
  obtain ⟨ha, hb⟩ := Uint128.norm_iff.mp hl
  obtain ⟨hc, hd⟩ := Uint128.norm_iff.mp hh
  rw [toNat_limbs] at hov
  have elo : u.lo.Lsh 1 = ⟨shl64 u.lo.lo 1, shl64 u.lo.hi 1 ||| shr64 u.lo.lo 63⟩ := by
    unfold Uint128.Lsh
    rw [if_neg (by norm_num)]
  have ehi : u.hi.Lsh 1 = ⟨shl64 u.hi.lo 1, shl64 u.hi.hi 1 ||| shr64 u.hi.lo 63⟩ := by
    unfold Uint128.Lsh
    rw [if_neg (by norm_num)]
  have ersh : u.lo.Rsh (128 - 1) = ⟨shr64 u.lo.hi 63, 0⟩ := by
    unfold Uint128.Rsh
    rw [if_pos (by norm_num)]
  unfold Lsh
  rw [if_neg (by norm_num), if_neg (by norm_num), elo, ehi, ersh]
  unfold Uint128.Or
  simp only
  rw [Nat.or_zero]
  have e1 := shl1_or_shr63 u.lo.hi u.lo.lo (by rw [W64_eq]; omega)
  have e2 := shl1_or_shr63 u.hi.lo u.lo.hi (by rw [W64_eq]; omega)
  have e3 := shl1_or_shr63 u.hi.hi u.hi.lo (by rw [W64_eq]; omega)
  have e1l : shl64 u.lo.lo 1 = u.lo.lo * 2 % W64 := by
    unfold shl64
    norm_num
  constructor
  · rw [toNat_limbs, toNat_limbs]
    simp only
    rw [e1, e2, e3, e1l, W64_eq]
    omega
  · rw [norm_iff256]
    simp only
    rw [e1, e2, e3, e1l, W64_eq]
    omega

theorem zero_norm : (zero : Uint256).Norm := by
  rw [norm_iff256]
  refine ⟨?_, ?_, ?_, ?_⟩ <;> norm_num [zero, Uint128.zero]

theorem zero_toNat : (zero : Uint256).toNat = 0 := rfl

/-- One restoring-division step preserves the loop invariant: before
processing bit `i` the accumulators hold the quotient and remainder of
the dividend prefix `u >> (i+1)`; afterwards they hold those of
`u >> i`. -/
theorem quoRemStep_spec (u v : Uint256) (i : Nat) (qacc racc : Uint256)
    (hu : u.Norm) (hv : v.Norm) (hvnz : v.toNat ≠ 0) (hi : i < 256)
    (hqn : qacc.Norm) (hrn : racc.Norm)
    (hq : qacc.toNat = u.toNat / 2 ^ (i + 1) / v.toNat * 2 ^ (i + 1))
    (hr : racc.toNat = u.toNat / 2 ^ (i + 1) % v.toNat) :
    (quoRemStep u v i (qacc, racc)).1.toNat = u.toNat / 2 ^ i / v.toNat * 2 ^ i ∧
    (quoRemStep u v i (qacc, racc)).2.toNat = u.toNat / 2 ^ i % v.toNat ∧
    (quoRemStep u v i (qacc, racc)).1.Norm ∧
    (quoRemStep u v i (qacc, racc)).2.Norm := by
  have hvpos : 0 < v.toNat := Nat.pos_of_ne_zero hvnz
  have hulim : u.toNat < 2 ^ 256 := toNat_lt256 hu
  set A := u.toNat / 2 ^ (i + 1) with hA
  set b := u.toNat / 2 ^ i % 2 with hb
  have hsplit : u.toNat / 2 ^ i = 2 * A + b := by
    have e1 : A = u.toNat / 2 ^ i / 2 := by
      rw [hA, Nat.div_div_eq_div_mul, ← pow_succ]
    rw [e1, hb]
    omega
  have hrA : racc.toNat ≤ A := by
    rw [hr]
    exact Nat.mod_le _ _
  have hA255 : A < 2 ^ 255 := by
    have : u.toNat / 2 ^ (i + 1) ≤ u.toNat / 2 := by
      apply Nat.div_le_div_left
      · have : (2 : Nat) ^ 1 ≤ 2 ^ (i + 1) := Nat.pow_le_pow_right (by omega) (by omega)
        simpa using this
      · omega
    have h2 : u.toNat / 2 < 2 ^ 255 := by omega
    omega
  have hshift : racc.toNat * 2 < 2 ^ 256 := by omega
  obtain ⟨er1, nr1⟩ := lsh_one_spec racc hrn hshift
  have hbit : u.Bit i = b := bit_spec256 u i hu hi
  -- the value of r2 in both bit cases
  have hr2 : ∀ r2 : Uint256,
      r2 = (if u.Bit i ≠ 0 then (racc.Lsh 1).SetBit 0 else racc.Lsh 1) →
      r2.toNat = 2 * racc.toNat + b ∧ r2.Norm := by
    intro r2 hdef
    by_cases hcb : b = 0
    · rw [hdef, if_neg (by rw [hbit, hcb]; omega)]
      refine ⟨?_, nr1⟩
      rw [er1]
      omega
    · have hb1 : b = 1 := by
        rw [hb] at hcb ⊢
        omega
      have hbz : (racc.Lsh 1).toNat / 2 ^ 0 % 2 = 0 := by
        rw [pow_zero, Nat.div_one, er1]
        omega
      obtain ⟨es, ns⟩ := setBit_spec256 (racc.Lsh 1) 0 nr1 (by omega) hbz
      rw [hdef, if_pos (by rw [hbit, hb1]; omega)]
      refine ⟨?_, ns⟩
      rw [es, er1, pow_zero]
      omega
  obtain ⟨er2, nr2⟩ := hr2 _ rfl
  have hAdm : v.toNat * (A / v.toNat) + A % v.toNat = A := Nat.div_add_mod A v.toNat
  have hAmod : A % v.toNat < v.toNat := Nat.mod_lt _ hvpos
  unfold quoRemStep
  simp only
  by_cases hge : v.toNat ≤ (if u.Bit i ≠ 0 then (racc.Lsh 1).SetBit 0 else racc.Lsh 1).toNat
  · rw [if_pos ((gte_iff256 nr2 hv).mpr hge)]
    rw [er2, hr] at hge
    obtain ⟨w, hw, hwv, hwn⟩ :=
      sub_spec _ v nr2 hv (by rw [er2, hr]; exact hge)
    rw [hw]
    have hqbit : qacc.toNat / 2 ^ i % 2 = 0 := by
      rw [hq]
      have : u.toNat / 2 ^ (i + 1) / v.toNat * 2 ^ (i + 1) =
          u.toNat / 2 ^ (i + 1) / v.toNat * 2 * 2 ^ i := by
        rw [pow_succ]
        ring
      rw [this, Nat.mul_div_cancel _ (Nat.pos_pow_of_pos _ (by omega))]
      omega
    obtain ⟨eq2, nq2⟩ := setBit_spec256 qacc i hqn hi hqbit
    have hdu : u.toNat / 2 ^ i / v.toNat = 2 * (A / v.toNat) + 1 ∧
        u.toNat / 2 ^ i % v.toNat = 2 * (A % v.toNat) + b - v.toNat := by
      have expand : v.toNat * (2 * (A / v.toNat) + 1) =
          2 * (v.toNat * (A / v.toNat)) + v.toNat := by ring
      have key := Nat.div_mod_unique hvpos
        (a := u.toNat / 2 ^ i) (b := v.toNat)
        (c := 2 * (A % v.toNat) + b - v.toNat) (d := 2 * (A / v.toNat) + 1)
      rw [key.mpr ⟨by omega, by omega⟩ |>.1, key.mpr ⟨by omega, by omega⟩ |>.2]
      exact ⟨rfl, rfl⟩
    refine ⟨?_, ?_, nq2, hwn⟩
    · rw [eq2, hq, hdu.1]
      rw [pow_succ]
      ring
    · rw [hwv, er2, hr, hdu.2]
  · rw [if_neg (by
      intro hcon
      exact hge ((gte_iff256 nr2 hv).mp hcon))]
    have hlt : 2 * (A % v.toNat) + b < v.toNat := by
      rw [er2, hr] at hge
      omega
    have hdu : u.toNat / 2 ^ i / v.toNat = 2 * (A / v.toNat) ∧
        u.toNat / 2 ^ i % v.toNat = 2 * (A % v.toNat) + b := by
      have expand : v.toNat * (2 * (A / v.toNat)) =
          2 * (v.toNat * (A / v.toNat)) := by ring
      have key := Nat.div_mod_unique hvpos
        (a := u.toNat / 2 ^ i) (b := v.toNat)
        (c := 2 * (A % v.toNat) + b) (d := 2 * (A / v.toNat))
      rw [key.mpr ⟨by omega, by omega⟩ |>.1, key.mpr ⟨by omega, by omega⟩ |>.2]
      exact ⟨rfl, rfl⟩
    refine ⟨?_, ?_, hqn, nr2⟩
    · rw [hq, hdu.1, pow_succ]
      ring
    · rw [er2, hr, hdu.2]

/-- The restoring-division loop: processing the remaining `i` low bits
turns prefix quotient/remainder accumulators into those of the full
dividend. -/
theorem quoRemLoop_spec (u v : Uint256) (hu : u.Norm) (hv : v.Norm)
    (hvnz : v.toNat ≠ 0) :
    ∀ i qacc racc, i ≤ 256 → qacc.Norm → racc.Norm →
      qacc.toNat = u.toNat / 2 ^ i / v.toNat * 2 ^ i →
      racc.toNat = u.toNat / 2 ^ i % v.toNat →
      (quoRemLoop u v i (qacc, racc)).1.toNat = u.toNat / v.toNat ∧
      (quoRemLoop u v i (qacc, racc)).2.toNat = u.toNat % v.toNat ∧
      (quoRemLoop u v i (qacc, racc)).1.Norm ∧
      (quoRemLoop u v i (qacc, racc)).2.Norm := by
  intro i
  induction i with
  | zero =>
    intro qacc racc _ hqn hrn hq hr
    unfold quoRemLoop
    rw [pow_zero, Nat.div_one] at hq hr
    rw [Nat.mul_one] at hq
    exact ⟨hq, hr, hqn, hrn⟩
  | succ i ih =>
    intro qacc racc hle hqn hrn hq hr
    obtain ⟨s1, s2, s3, s4⟩ :=
      quoRemStep_spec u v i qacc racc hu hv hvnz (by omega) hqn hrn hq hr
    have hunf : quoRemLoop u v (i + 1) (qacc, racc) =
        quoRemLoop u v i (quoRemStep u v i (qacc, racc)) := rfl
    rw [hunf]
    have := ih (quoRemStep u v i (qacc, racc)).1 (quoRemStep u v i (qacc, racc)).2
      (by omega) s3 s4 s1 s2
    exact this

/-- Go `quoRemCore` computes the true quotient and remainder for every
nonzero divisor. -/
theorem quoRemCore_spec (u v : Uint256) (hu : u.Norm) (hv : v.Norm)
    (hvnz : v.toNat ≠ 0) :
    (quoRemCore u v).1.toNat = u.toNat / v.toNat ∧
    (quoRemCore u v).2.toNat = u.toNat % v.toNat ∧
    (quoRemCore u v).1.Norm ∧ (quoRemCore u v).2.Norm := by
  unfold quoRemCore
  by_cases hc : u.Lt v = true
  · rw [if_pos hc]
    have hlt := (lt_iff256 hu hv).mp hc
    refine ⟨?_, ?_, zero_norm, hu⟩
    · rw [zero_toNat, Nat.div_eq_of_lt hlt]
    · rw [Nat.mod_eq_of_lt hlt]
  · rw [if_neg hc]
    have h256 : u.toNat / 2 ^ 256 = 0 := Nat.div_eq_of_lt (toNat_lt256 hu)
    exact quoRemLoop_spec u v hu hv hvnz 256 zero zero (by omega) zero_norm
      zero_norm (by rw [zero_toNat, h256]; simp) (by rw [zero_toNat, h256]; simp)

/-- Go `Uint256.QuoRem` with a nonzero divisor. -/
theorem quoRem_spec (u v : Uint256) (hu : u.Norm) (hv : v.Norm)
    (hvnz : v.toNat ≠ 0) :
    ∃ q r, u.QuoRem v = .ok (q, r) ∧ q.toNat = u.toNat / v.toNat ∧
      r.toNat = u.toNat % v.toNat ∧ q.Norm ∧ r.Norm := by
  obtain ⟨e1, e2, n1, n2⟩ := quoRemCore_spec u v hu hv hvnz
  refine ⟨(quoRemCore u v).1, (quoRemCore u v).2, ?_, e1, e2, n1, n2⟩
  unfold QuoRem
  rw [if_neg (by
    intro hcon
    exact hvnz ((isZero_iff256 v).mp hcon))]

end Uint256

theorem u128OfNat_spec (n : Nat) (h : n < W128) :
    (u128OfNat n).toNat = n ∧ (u128OfNat n).Norm := by
  rw [W128_eq] at h
  unfold u128OfNat
  refine ⟨?_, Uint128.norm_iff.mpr ⟨?_, ?_⟩⟩
  · rw [Uint128.toNat_eq]
    dsimp only
    rw [W64_eq]
    omega
  · dsimp only
    rw [W64_eq]
    omega
  · dsimp only
    rw [W64_eq]
    omega

namespace Uint128

/-- The full 128×128→256-bit product is exact whenever the multiplicand’s
high limb is zero — the only shape the decimal package ever uses (scaling a
coefficient by a power of ten below 2^64).  For general operands the
source’s `r2_final, carry_to_r3_from_r2_final := bits.Add64(r2_part2,
carry2, 0)` folds `carry2`, a carry of weight 2^192, into the 2^128-weight
limb, so the unrestricted product identity does not hold. -/
theorem mulFull_spec (u v : Uint128) (hu : u.Norm) (hv : v.Norm)
    (hv0 : v.hi = 0) :
    (u.MulFull v).1.toNat * W128 + (u.MulFull v).2.toNat = u.toNat * v.toNat ∧
    (u.MulFull v).1.Norm ∧ (u.MulFull v).2.Norm := by
  obtain ⟨h1, h2⟩ := hu
  obtain ⟨h3, h4⟩ := hv
  obtain ⟨vlo, vhi⟩ := v
  simp only at hv0 h3 h4
  subst hv0
  rw [W64_eq] at h1 h2 h3 h4
  have ha : u.lo * vlo ≤ 18446744073709551615 * 18446744073709551615 :=
    Nat.mul_le_mul (by omega) (by omega)
  have hb : u.hi * vlo ≤ 18446744073709551615 * 18446744073709551615 :=
    Nat.mul_le_mul (by omega) (by omega)
  have hexp : u.toNat * Uint128.toNat ⟨vlo, 0⟩ =
      u.hi * vlo * 18446744073709551616 + u.lo * vlo := by
    rw [toNat_eq, toNat_eq]
    dsimp only
    ring
  rw [hexp]
  unfold MulFull mul64 add64 toNat Norm
  dsimp only
  simp only [Nat.mul_zero, Nat.zero_mul, Nat.zero_div, Nat.zero_mod,
    Nat.add_zero, Nat.zero_add]
  rw [W64_eq, W128_eq]
  omega

end Uint128

namespace Uint256

theorem hi_toNat {w : Uint256} (hw : w.Norm) : w.hi.toNat = w.toNat / 2 ^ 128 := by
  obtain ⟨hl, hh⟩ := hw
  have h1 := Uint128.toNat_lt hl
  rw [W128_eq] at h1
  unfold toNat
  rw [W128_eq]
  omega

theorem lo_toNat {w : Uint256} (hw : w.Norm) : w.lo.toNat = w.toNat % 2 ^ 128 := by
  obtain ⟨hl, hh⟩ := hw
  have h1 := Uint128.toNat_lt hl
  rw [W128_eq] at h1
  unfold toNat
  rw [W128_eq]
  omega

theorem toNat_inj256 {u v : Uint256} (hu : u.Norm) (hv : v.Norm)
    (h : u.toNat = v.toNat) : u = v := by
  obtain ⟨hul, huh⟩ := hu
  obtain ⟨hvl, hvh⟩ := hv
  have e1 : u.hi = v.hi := Uint128.toNat_inj huh hvh (by
    rw [hi_toNat ⟨hul, huh⟩, hi_toNat ⟨hvl, hvh⟩, h])
  have e2 : u.lo = v.lo := Uint128.toNat_inj hul hvl (by
    rw [lo_toNat ⟨hul, huh⟩, lo_toNat ⟨hvl, hvh⟩, h])
  obtain ⟨a, b⟩ := u
  obtain ⟨c, d⟩ := v
  simp_all

theorem newFromUint128_toNat (v : Uint128) :
    (NewFromUint128 v).toNat = v.toNat := by
  unfold NewFromUint128 toNat
  dsimp only
  rw [show (Uint128.zero).toNat = 0 from rfl]
  omega

theorem newFromUint128_norm (v : Uint128) (hv : v.Norm) :
    (NewFromUint128 v).Norm := by
  refine ⟨hv, ?_⟩
  show Uint128.zero.Norm
  exact Uint128.norm_iff.mpr ⟨by norm_num [Uint128.zero, W64], by norm_num [Uint128.zero, W64]⟩

theorem new_toNat (lo hi : Uint128) :
    (New lo hi).toNat = hi.toNat * 2 ^ 128 + lo.toNat := by
  unfold New toNat
  rw [W128]

end Uint256

namespace Decimal

/-- Characterization of `tryQuoRemU128` on operands of unequal precision
whose checked divisor scaling returns `.ok M` (the returned `M` need not be
the true product — `Uint128.Mul` can miss an overflow): the result is the
256-bit division of the exactly scaled dividend by `M`, provided `M` is
nonzero and the quotient fits in 128 bits. -/
theorem tryQuoRemU128_spec_ne (d e : Decimal) (M : Uint128)
    (hdo : d.coef.overflow = false) (heo : e.coef.overflow = false)
    (hne : ¬ d.prec = e.prec)
    (hdn : d.coef.u128.Norm)
    (hsn : (pow10 (max d.prec e.prec - d.prec)).Norm)
    (hs0 : (pow10 (max d.prec e.prec - d.prec)).hi = 0)
    (hMul : e.coef.u128.Mul (pow10 (max d.prec e.prec - e.prec)) = .ok M)
    (hMn : M.Norm) (hMnz : M.toNat ≠ 0)
    (hq : d.coef.u128.toNat * (pow10 (max d.prec e.prec - d.prec)).toNat / M.toNat
      < W128) :
    tryQuoRemU128 d e = .ok
      (newDecimal (d.neg != e.neg)
        (bintFromU128 (u128OfNat
          (d.coef.u128.toNat * (pow10 (max d.prec e.prec - d.prec)).toNat
            / M.toNat))) 0,
       newDecimal d.neg
        (bintFromU128 (u128OfNat
          (d.coef.u128.toNat * (pow10 (max d.prec e.prec - d.prec)).toNat
            % M.toNat)))
        (max d.prec e.prec)) := by
  have hpw : (2 : Nat) ^ 128 = W128 := by rw [W128_eq]; norm_num
  have hMz : ¬ (M.IsZero = true) := fun hc => hMnz ((Uint128.isZero_iff M).mp hc)
  unfold tryQuoRemU128
  rw [hdo, heo]
  rw [if_neg (show ¬ ((false || false) = true) by simp)]
  dsimp only
  rw [if_neg hne, hMul]
  dsimp only
  rw [if_neg hMz]
  set P := d.coef.u128.MulFull (pow10 (max d.prec e.prec - d.prec)) with hP
  obtain ⟨hfull, hn1, hn2⟩ :=
    Uint128.mulFull_spec d.coef.u128 (pow10 (max d.prec e.prec - d.prec)) hdn hsn hs0
  rw [← hP] at hfull hn1 hn2
  have hDn : (Uint256.New P.2 P.1).Norm := ⟨hn2, hn1⟩
  have hDv : (Uint256.New P.2 P.1).toNat =
      d.coef.u128.toNat * (pow10 (max d.prec e.prec - d.prec)).toNat := by
    rw [Uint256.new_toNat, hpw]
    exact hfull
  have hVn := Uint256.newFromUint128_norm M hMn
  have hVv := Uint256.newFromUint128_toNat M
  obtain ⟨q256, r256, hok, hqv, hrv, hqn, hrn⟩ :=
    Uint256.quoRem_spec (Uint256.New P.2 P.1) (Uint256.NewFromUint128 M) hDn hVn
      (by rw [hVv]; exact hMnz)
  rw [hok]
  dsimp only
  have hqT : q256.toNat =
      d.coef.u128.toNat * (pow10 (max d.prec e.prec - d.prec)).toNat / M.toNat := by
    rw [hqv, hDv, hVv]
  have hrT : r256.toNat =
      d.coef.u128.toNat * (pow10 (max d.prec e.prec - d.prec)).toNat % M.toNat := by
    rw [hrv, hDv, hVv]
  have hqW : q256.toNat < W128 := by rw [hqT]; exact hq
  have hrW : r256.toNat < W128 := by
    rw [hrT]
    exact lt_of_lt_of_le (Nat.mod_lt _ (Nat.pos_of_ne_zero hMnz))
      (le_of_lt (Uint128.toNat_lt hMn))
  have hqhi : q256.hi.IsZero = true := by
    rw [Uint128.isZero_iff, Uint256.hi_toNat hqn, hpw]
    exact Nat.div_eq_of_lt hqW
  have hrhi : r256.hi.IsZero = true := by
    rw [Uint128.isZero_iff, Uint256.hi_toNat hrn, hpw]
    exact Nat.div_eq_of_lt hrW
  have hcond : ¬ (q256.hi.IsZero = false ∨ r256.hi.IsZero = false) := by
    simp [hqhi, hrhi]
  rw [if_neg hcond]
  obtain ⟨hwq1, hwq2⟩ := u128OfNat_spec
    (d.coef.u128.toNat * (pow10 (max d.prec e.prec - d.prec)).toNat / M.toNat) hq
  obtain ⟨hwr1, hwr2⟩ := u128OfNat_spec
    (d.coef.u128.toNat * (pow10 (max d.prec e.prec - d.prec)).toNat % M.toNat)
    (by rw [← hrT]; exact hrW)
  have hql : q256.lo = u128OfNat
      (d.coef.u128.toNat * (pow10 (max d.prec e.prec - d.prec)).toNat / M.toNat) := by
    refine Uint128.toNat_inj hqn.1 hwq2 ?_
    rw [hwq1, Uint256.lo_toNat hqn, hqT, hpw]
    exact Nat.mod_eq_of_lt (by rw [← hqT]; exact hqW)
  have hrl : r256.lo = u128OfNat
      (d.coef.u128.toNat * (pow10 (max d.prec e.prec - d.prec)).toNat % M.toNat) := by
    refine Uint128.toNat_inj hrn.1 hwr2 ?_
    rw [hwr1, Uint256.lo_toNat hrn, hrT, hpw]
    exact Nat.mod_eq_of_lt (by rw [← hrT]; exact hrW)
  rw [hql, hrl]

end Decimal

/-- The `.ok` value the buggy checked `Uint128.Mul` returns when scaling the
divisor coefficient of `quoRemBugE` by 10^19 (the true product overflows
128 bits, so no `.ok` value should be returned at all). -/
theorem quoRemBug_mul_ok :
    quoRemBugE.coef.u128.Mul
        (pow10 (max quoRemBugD.prec quoRemBugE.prec - quoRemBugE.prec)) =
      .ok ⟨4761692114926960640, 10032871677382970⟩ := by
  rfl

/-- C7: `QuoRem` violates its functional contract. On the nonzero divisor
`quoRemBugE` (= 2^64 + 15600000000000000000) and dividend `quoRemBugD`
(= 10^19), it returns no error, yet the quotient is 540 instead of 0 and
the fmod identity d = q*e + r fails: the divisor scaling inside
`tryQuoRemU128` goes through the carry-dropping checked `Uint128.Mul`,
which silently returns a wrong 128-bit divisor. -/
theorem C7_quorem_breaks_division_identity :
    quoRemBugE.coef.IsZero = false ∧
    ∃ q r : Decimal,
      Decimal.QuoRem quoRemBugD quoRemBugE = .ok (q, r) ∧
      q.val = 540 ∧
      quoRemBugD.val ≠ q.val * quoRemBugE.val + r.val := by
  have h := Decimal.tryQuoRemU128_spec_ne quoRemBugD quoRemBugE
    ⟨4761692114926960640, 10032871677382970⟩
    rfl rfl (by decide) (by decide) (by decide) (by decide) quoRemBug_mul_ok
    (by decide) (by decide) (by decide)
  refine ⟨rfl,
    ⟨⟨none, ⟨540, 0⟩⟩, false, 0⟩,
    ⟨⟨none, ⟨11917827810179153920, 3260156640718230⟩⟩, false, 19⟩,
    ?_, ?_, ?_⟩
  · unfold Decimal.QuoRem
    rw [if_neg (by decide), h]
    rfl
  · norm_num [Decimal.val, bint.toNat, Uint128.toNat, W64]
  · norm_num [Decimal.val, bint.toNat, Uint128.toNat, W64, quoRemBugD,
      quoRemBugE, bintFromU128, pow10]

/-- C1: the Word128/Word256 fast path and the big-integer fallback do not
always agree. On `quoRemBugD / quoRemBugE` the fast path `tryQuoRemU128`
succeeds with quotient 540, while the big-integer computation of the same
division (the code's own fallback block) yields quotient 0 and remainder
equal to the dividend: crossing the fast-path boundary changes the
numeric result, because the fast path's divisor scaling uses the
carry-dropping checked `Uint128.Mul`. -/
theorem C1_fast_path_diverges_from_big_path :
    ∃ q r : Decimal,
      Decimal.tryQuoRemU128 quoRemBugD quoRemBugE = .ok (q, r) ∧
      q.val = 540 ∧
      Decimal.quoRemBig quoRemBugD quoRemBugE =
        (Decimal.Zero, ⟨bintFromBigInt (10 ^ 38), false, 19⟩) ∧
      q.val ≠ (Decimal.quoRemBig quoRemBugD quoRemBugE).1.val := by
  have h := Decimal.tryQuoRemU128_spec_ne quoRemBugD quoRemBugE
    ⟨4761692114926960640, 10032871677382970⟩
    rfl rfl (by decide) (by decide) (by decide) (by decide) quoRemBug_mul_ok
    (by decide) (by decide) (by decide)
  have hbig : Decimal.quoRemBig quoRemBugD quoRemBugE =
      (Decimal.Zero, ⟨bintFromBigInt (10 ^ 38), false, 19⟩) := by rfl
  refine ⟨⟨⟨none, ⟨540, 0⟩⟩, false, 0⟩,
    ⟨⟨none, ⟨11917827810179153920, 3260156640718230⟩⟩, false, 19⟩,
    ?_, ?_, hbig, ?_⟩
  · rw [h]
    rfl
  · norm_num [Decimal.val, bint.toNat, Uint128.toNat, W64]
  · rw [hbig]
    norm_num [Decimal.val, bint.toNat, Uint128.toNat, W64, Decimal.Zero,
      bintFromU128, Uint128.zero]

/-! ### Rounding: helper lemmas -/

theorem pow10_lo (f : Nat) (hf : f ≤ 19) : (pow10 f).lo = 10 ^ f := by
  have h1 : 10 ^ f ≤ 10 ^ 19 := Nat.pow_le_pow_right (by norm_num) hf
  unfold pow10
  dsimp only
  exact Nat.mod_eq_of_lt (lt_of_le_of_lt h1 (by rw [W64_eq]; norm_num))

theorem pow10_toNat (f : Nat) : (pow10 f).toNat = 10 ^ f := by
  unfold pow10 Uint128.toNat
  dsimp only
  rw [Nat.mul_comm]
  exact Nat.div_add_mod (10 ^ f) W64

/-- `Add64` succeeds and is exact below 2^128. -/
theorem Uint128.add64_ok (u : Uint128) (v : Nat) (hu : u.Norm)
    (hlt : u.toNat + v < W128) :
    u.Add64 v = .ok (u128OfNat (u.toNat + v)) := by
  obtain ⟨h1, h2⟩ := hu
  rw [Uint128.toNat_eq] at hlt
  unfold Uint128.Add64 add64 u128OfNat
  dsimp only
  rw [Uint128.toNat_eq]
  rw [W64_eq] at h1 h2 ⊢
  rw [W128_eq] at hlt
  rw [if_neg (by omega)]
  exact congrArg Except.ok (by simp only [Uint128.mk.injEq]; omega)

theorem bint.toNat_eq_u128 (b : bint) (h : b.overflow = false) :
    b.toNat = b.u128.toNat := by
  unfold bint.overflow at h
  have hb : b.bigInt = none := by
    cases hbb : b.bigInt
    · rfl
    · rw [hbb] at h
      simp at h
  unfold bint.toNat
  rw [hb]

theorem Decimal.val_newDecimal (n : Bool) (c : bint) (p : Nat) :
    (Decimal.newDecimal n c p).val =
      (if n then -1 else 1) * (c.toNat : ℚ) / 10 ^ p := by
  unfold Decimal.newDecimal
  by_cases h : c.IsZero = true
  · rw [if_pos h]
    have hz : c.toNat = 0 := by
      simpa [bint.IsZero] using h
    rw [hz]
    unfold Decimal.val Decimal.Zero
    norm_num [bint.toNat, bintFromU128, Uint128.toNat, Uint128.zero]
  · rw [if_neg h]
    unfold Decimal.val
    rfl

theorem bintFromU128_toNat (u : Uint128) : (bintFromU128 u).toNat = u.toNat :=
  rfl

theorem bintFromBigInt_toNat (n : Nat) : (bintFromBigInt n).toNat = n := rfl

/-! ### C6: RoundBank rounds half to even -/

/-- C6: for a target precision `p` below `d.prec`, `RoundBank` divides the
coefficient by `10^(d.prec - p)` and increments the quotient exactly when
the remainder exceeds half the divisor, or equals half of it and the
quotient is odd — on the Word128 fast path and on the big fallback alike;
and the three documented examples round as stated. -/
theorem C6_roundbank_half_to_even :
    (∀ (d : Decimal) (p : Nat), d.coef.u128.Norm → d.prec ≤ maxPrec →
      p < d.prec →
      (d.RoundBank p).val = (if d.neg then -1 else 1) *
        ((d.coef.toNat / 10 ^ (d.prec - p) +
          (if 10 ^ (d.prec - p) / 2 < d.coef.toNat % 10 ^ (d.prec - p) ∨
              (10 ^ (d.prec - p) / 2 = d.coef.toNat % 10 ^ (d.prec - p) ∧
               d.coef.toNat / 10 ^ (d.prec - p) % 2 = 1) then 1 else 0) : ℕ) : ℚ)
          / 10 ^ p) ∧
    (Parse "1.12345").map (fun x => x.RoundBank 4) = Parse "1.1234" ∧
    (Parse "1.5").map (fun x => x.RoundBank 0) = Parse "2" ∧
    (Parse "-1.5").map (fun x => x.RoundBank 0) = Parse "-2" := by
  refine ⟨?_, rfl, rfl, rfl⟩
  intro d p hn hp19 hp
  have h19 : d.prec ≤ 19 := by
    rw [show maxPrec = 19 from rfl] at hp19
    exact hp19
  have hfle : d.prec - p ≤ 19 := by omega
  have h10le : 10 ^ (d.prec - p) ≤ 10 ^ 19 := Nat.pow_le_pow_right (by norm_num) hfle
  have h10lit : (10 : ℕ) ^ 19 = 10000000000000000000 := by norm_num
  have h10ge : (10 : ℕ) ≤ 10 ^ (d.prec - p) := by
    calc (10 : ℕ) = 10 ^ 1 := by norm_num
    _ ≤ 10 ^ (d.prec - p) := Nat.pow_le_pow_right (by norm_num) (by omega)
  unfold Decimal.RoundBank
  rw [if_neg (by omega)]
  dsimp only
  by_cases hov : d.coef.overflow = false
  · -- Word128 fast path
    rw [hov, if_neg (show ¬ ((false : Bool) = true) by simp)]
    rw [pow10_lo (d.prec - p) hfle]
    obtain ⟨q, hqr, hqT, hqN⟩ := Uint128.quoRem64_spec d.coef.u128
      (10 ^ (d.prec - p)) hn (Nat.pos_pow_of_pos _ (by norm_num))
      (by rw [W64_eq]; omega)
    rw [hqr]
    dsimp only
    have ha := Uint128.toNat_lt hn
    have hodd : q.lo % 2 = q.toNat % 2 := by
      rw [Uint128.toNat_eq]
      omega
    have hplt : q.toNat + 1 < W128 := by
      have hb : d.coef.u128.toNat / 10 ^ (d.prec - p) ≤ d.coef.u128.toNat / 10 :=
        Nat.div_le_div_left h10ge (by norm_num)
      rw [hqT]
      rw [W128_eq] at ha ⊢
      omega
    rw [bint.toNat_eq_u128 d.coef hov]
    by_cases hC : 10 ^ (d.prec - p) / 2 < d.coef.u128.toNat % 10 ^ (d.prec - p) ∨
        (10 ^ (d.prec - p) / 2 = d.coef.u128.toNat % 10 ^ (d.prec - p) ∧
         q.lo % 2 = 1)
    · have hCc : 10 ^ (d.prec - p) / 2 < d.coef.u128.toNat % 10 ^ (d.prec - p) ∨
          (10 ^ (d.prec - p) / 2 = d.coef.u128.toNat % 10 ^ (d.prec - p) ∧
           d.coef.u128.toNat / 10 ^ (d.prec - p) % 2 = 1) := by
        rcases hC with h | ⟨he, ho⟩
        · exact Or.inl h
        · exact Or.inr ⟨he, by rw [← hqT, ← hodd]; exact ho⟩
      rw [if_pos hC, Uint128.add64_ok q 1 hqN hplt]
      dsimp only
      rw [Decimal.val_newDecimal, bintFromU128_toNat,
        (u128OfNat_spec (q.toNat + 1) hplt).1, hqT]
      rw [if_pos hCc]
    · have hCc : ¬ (10 ^ (d.prec - p) / 2 < d.coef.u128.toNat % 10 ^ (d.prec - p) ∨
          (10 ^ (d.prec - p) / 2 = d.coef.u128.toNat % 10 ^ (d.prec - p) ∧
           d.coef.u128.toNat / 10 ^ (d.prec - p) % 2 = 1)) := by
        intro hco
        refine hC ?_
        rcases hco with h | ⟨he, ho⟩
        · exact Or.inl h
        · exact Or.inr ⟨he, by rw [hodd, hqT]; exact ho⟩
      rw [if_neg hC]
      dsimp only
      rw [Decimal.val_newDecimal, bintFromU128_toNat, hqT]
      rw [if_neg hCc]
      rw [Nat.add_zero]
  · -- big-integer fallback
    rw [Bool.not_eq_false] at hov
    rw [hov, if_pos (show (true : Bool) = true from rfl)]
    dsimp only
    rw [pow10_lo (d.prec - p) hfle, pow10_toNat]
    unfold bint.GetBig
    rw [Decimal.val_newDecimal]
    by_cases hC : 10 ^ (d.prec - p) / 2 < d.coef.toNat % 10 ^ (d.prec - p) ∨
        (d.coef.toNat % 10 ^ (d.prec - p) = 10 ^ (d.prec - p) / 2 ∧
         d.coef.toNat / 10 ^ (d.prec - p) % 2 = 1)
    · have hCc : 10 ^ (d.prec - p) / 2 < d.coef.toNat % 10 ^ (d.prec - p) ∨
          (10 ^ (d.prec - p) / 2 = d.coef.toNat % 10 ^ (d.prec - p) ∧
           d.coef.toNat / 10 ^ (d.prec - p) % 2 = 1) := by
        rcases hC with h | ⟨he, ho⟩
        · exact Or.inl h
        · exact Or.inr ⟨he.symm, ho⟩
      rw [if_pos hC, bintFromBigInt_toNat]
      rw [if_pos hCc]
    · have hCc : ¬ (10 ^ (d.prec - p) / 2 < d.coef.toNat % 10 ^ (d.prec - p) ∨
          (10 ^ (d.prec - p) / 2 = d.coef.toNat % 10 ^ (d.prec - p) ∧
           d.coef.toNat / 10 ^ (d.prec - p) % 2 = 1)) := by
        intro hco
        refine hC ?_
        rcases hco with h | ⟨he, ho⟩
        · exact Or.inl h
        · exact Or.inr ⟨he.symm, ho⟩
      rw [if_neg hC, bintFromBigInt_toNat]
      rw [if_neg hCc]
      rw [Nat.add_zero]

/-- C6 witness: the general half-to-even theorem applied to 1.5 at target
precision 0 (remainder equals half, quotient 1 is odd, so round up to 2). -/
theorem C6_witness :
    (Decimal.RoundBank ⟨bintFromU64 15, false, 1⟩ 0).val = 2 := by
  have h := C6_roundbank_half_to_even.1 ⟨bintFromU64 15, false, 1⟩ 0
    (by decide) (by decide) (by decide)
  rw [h]
  norm_num [bint.toNat, bintFromU64, Uint128.NewFromUint64, Uint128.New,
    Uint128.toNat, W64]

/-! ### C8: zero base under the integer-power operations -/

/-- C8 counterexample: the claim includes `PowInt` among the operations
with 0^0 = One, but `PowInt` (deprecated precisely for this) returns Zero
for a zero base under every exponent. -/
theorem C8_counterexample :
    Decimal.PowInt Decimal.Zero 0 = Decimal.Zero ∧ Decimal.Zero ≠ Decimal.One := by
  exact ⟨rfl, by decide⟩

/-- C8 (amended): `PowInt32` yields One on 0^0 and signals
ZeroRaisedToNegativePower on a zero base with a negative exponent;
`PowToIntPart` signals that error for a zero base whenever the exponent
decimal has its sign flag set — even when its truncated integer part is
zero — and yields One for a zero base and a non-negative exponent with
zero integer part; the deprecated `PowInt` returns Zero for a zero base
regardless of the exponent. -/
theorem C8_zero_base_power_cases :
    (∀ e : Int, Decimal.PowInt Decimal.Zero e = Decimal.Zero) ∧
    Decimal.PowInt32 Decimal.Zero 0 = .ok Decimal.One ∧
    (∀ e : Int, e < 0 →
      Decimal.PowInt32 Decimal.Zero e = .error .zeroPowNegative) ∧
    (∀ e : Decimal, e.neg = true →
      Decimal.PowToIntPart Decimal.Zero e = .error .zeroPowNegative) ∧
    (∀ e : Decimal, e.neg = false → e.Trunc 0 = Decimal.Zero →
      Decimal.PowToIntPart Decimal.Zero e = .ok Decimal.One) := by
  refine ⟨?_, rfl, ?_, ?_, ?_⟩
  · intro e
    have hz : Decimal.Zero.coef.IsZero = true := rfl
    unfold Decimal.PowInt
    rw [if_pos hz]
  · intro e he
    have hz : Decimal.Zero.coef.IsZero = true := rfl
    unfold Decimal.PowInt32
    rw [if_pos ⟨hz, he⟩]
  · intro e he
    have hz : Decimal.Zero.coef.IsZero = true := rfl
    unfold Decimal.PowToIntPart
    rw [if_pos ⟨hz, he⟩]
  · intro e hneg htrunc
    have hz : ¬(Decimal.Zero.coef.IsZero = true ∧ e.neg = true) := by
      rw [hneg]
      simp
    unfold Decimal.PowToIntPart
    rw [if_neg hz, htrunc]
    rfl

/-- C8 witness: the amended theorem at the concrete inputs
PowInt(0, -3), PowInt32(0, -1), PowToIntPart(0, -0.5) and
PowToIntPart(0, 0.5). -/
theorem C8_witness :
    Decimal.PowInt Decimal.Zero (-3) = Decimal.Zero ∧
    Decimal.PowInt32 Decimal.Zero (-1) = .error .zeroPowNegative ∧
    Decimal.PowToIntPart Decimal.Zero ⟨bintFromU64 5, true, 1⟩ =
      .error .zeroPowNegative ∧
    Decimal.PowToIntPart Decimal.Zero ⟨bintFromU64 5, false, 1⟩ =
      .ok Decimal.One :=
  ⟨C8_zero_base_power_cases.1 (-3),
   C8_zero_base_power_cases.2.2.1 (-1) (by decide),
   C8_zero_base_power_cases.2.2.2.1 ⟨bintFromU64 5, true, 1⟩ rfl,
   C8_zero_base_power_cases.2.2.2.2 ⟨bintFromU64 5, false, 1⟩ rfl (by decide)⟩

/-! ### C4: the Newton-Raphson square-root loop can cycle forever -/

theorem Uint128.addCarry_spec (u v : Uint128) (hu : u.Norm) (hv : v.Norm) :
    (u.AddCarry v 0).1.toNat = (u.toNat + v.toNat) % W128 ∧
    (u.AddCarry v 0).2 = (u.toNat + v.toNat) / W128 ∧
    (u.AddCarry v 0).1.Norm := by
  obtain ⟨h1, h2⟩ := hu
  obtain ⟨h3, h4⟩ := hv
  unfold Uint128.AddCarry add64 Uint128.toNat Uint128.Norm
  dsimp only
  rw [W64_eq] at h1 h2 h3 h4
  rw [W64_eq, W128_eq]
  omega

theorem Uint128.rsh_one_spec (u : Uint128) (hu : u.Norm) :
    (u.Rsh 1).toNat = u.toNat / 2 ∧ (u.Rsh 1).Norm := by
  obtain ⟨h1, h2⟩ := hu
  unfold Uint128.Rsh shr64 shl64
  rw [if_neg (by norm_num)]
  have hor : u.lo / 2 ^ 1 ||| u.hi * 2 ^ (64 - 1) % W64 =
      2 ^ 63 * (u.hi % 2) + u.lo / 2 := by
    have hlt : u.lo / 2 < 2 ^ 63 := by
      rw [W64_eq] at h1
      omega
    have e1 : u.hi * 2 ^ (64 - 1) % W64 = 2 ^ 63 * (u.hi % 2) := by
      rw [W64_eq]
      norm_num
      omega
    have e2 : u.lo / 2 ^ 1 = u.lo / 2 := by norm_num
    rw [e1, e2, Nat.lor_comm, ← Nat.mul_add_lt_is_or hlt]
  rw [hor]
  unfold Uint128.toNat Uint128.Norm
  dsimp only
  have e3 : (2 : ℕ) ^ 1 = 2 := by norm_num
  rw [e3]
  rw [W64_eq] at h1 h2 ⊢
  omega

theorem cmpBig_eq_zero (a b : Nat) : Decimal.cmpBig a b = 0 ↔ a = b := by
  unfold Decimal.cmpBig
  split_ifs with h1 h2
  · simp
    omega
  · simp [h2]
  · simp
    omega

/-- One Newton-Raphson pass, expressed on values: when the guess is
nonzero and no 128-bit overflow occurs, the loop body computes the
averaged estimate (x + S/x) / 2 and exits exactly at a fixed point. -/
theorem Decimal.sqrtStep_eval (S : Uint256) (x : Uint128) (hSn : S.Norm)
    (hx : x.Norm) (hnz : x.toNat ≠ 0)
    (hdiv : S.toNat / x.toNat < W128)
    (hsum : x.toNat + S.toNat / x.toNat < W128) :
    Decimal.sqrtStep S x =
      (if (x.toNat + S.toNat / x.toNat) / 2 = x.toNat
       then .exitOk (u128OfNat ((x.toNat + S.toNat / x.toNat) / 2))
       else .cont (u128OfNat ((x.toNat + S.toNat / x.toNat) / 2))) := by
  have hpw : (2 : Nat) ^ 128 = W128 := by rw [W128_eq]; norm_num
  unfold Decimal.sqrtStep
  rw [if_neg (show ¬ (x.IsZero = true) from
    fun hc => hnz ((Uint128.isZero_iff x).mp hc))]
  obtain ⟨q256, r256, hok, hqv, hrv, hqn, hrn⟩ :=
    Uint256.quoRem_spec S (Uint256.NewFromUint128 x) hSn
      (Uint256.newFromUint128_norm x hx)
      (by rw [Uint256.newFromUint128_toNat]; exact hnz)
  rw [hok]
  dsimp only
  have hqT : q256.toNat = S.toNat / x.toNat := by
    rw [hqv, Uint256.newFromUint128_toNat]
  have hqhi : q256.hi.IsZero = true := by
    rw [Uint128.isZero_iff, Uint256.hi_toNat hqn, hqT, hpw]
    exact Nat.div_eq_of_lt hdiv
  rw [if_neg (show ¬ (q256.hi.IsZero = false) by simp [hqhi])]
  have hlo : q256.lo.toNat = S.toNat / x.toNat := by
    rw [Uint256.lo_toNat hqn, hqT, hpw]
    exact Nat.mod_eq_of_lt hdiv
  obtain ⟨ha1, ha2, ha3⟩ := Uint128.addCarry_spec x q256.lo hx hqn.1
  have hsum2 : x.toNat + q256.lo.toNat < W128 := by rw [hlo]; exact hsum
  have hc2 : (x.AddCarry q256.lo 0).2 = 0 := by
    rw [ha2]
    exact Nat.div_eq_of_lt hsum2
  rw [if_neg (show ¬ ((x.AddCarry q256.lo 0).2 ≠ 0) from fun hcc => hcc hc2)]
  obtain ⟨hr1, hr2⟩ := Uint128.rsh_one_spec (x.AddCarry q256.lo 0).1 ha3
  have hmW : (x.toNat + S.toNat / x.toNat) / 2 < W128 :=
    Nat.lt_of_le_of_lt (Nat.div_le_self _ _) hsum
  obtain ⟨hw1, hw2⟩ := u128OfNat_spec ((x.toNat + S.toNat / x.toNat) / 2) hmW
  have hx1 : (x.AddCarry q256.lo 0).1.Rsh 1 =
      u128OfNat ((x.toNat + S.toNat / x.toNat) / 2) := by
    refine Uint128.toNat_inj hr2 hw2 ?_
    rw [hr1, ha1, hw1, Nat.mod_eq_of_lt hsum2, hlo]
  rw [hx1]
  rw [Uint128.cmp_spec hw2 hx, hw1]
  exact if_congr (cmpBig_eq_zero _ _) rfl rfl

/-- On the scaled coefficient of `sqrtBadInput`, once the estimate enters
the computed orbit the loop never exits, for any amount of fuel. -/
theorem Decimal.sqrtLoop_stuck :
    ∀ (fuel v : Nat), v ∈ sqrtBadOrbit →
      Decimal.sqrtLoop sqrtBadScaled fuel (u128OfNat v) = none := by
  intro fuel
  induction fuel with
  | zero => intro v hv; rfl
  | succ n ih =>
    intro v hv
    have hfacts : v ≠ 0 ∧ v < W128 ∧ sqrtBadScaled.toNat / v < W128 ∧
        v + sqrtBadScaled.toNat / v < W128 ∧
        ¬ ((v + sqrtBadScaled.toNat / v) / 2 = v) ∧
        ((v + sqrtBadScaled.toNat / v) / 2) ∈ sqrtBadOrbit := by
      fin_cases hv <;> exact by decide
    obtain ⟨h0, hvW, hdiv, hsum, hne, hmem⟩ := hfacts
    obtain ⟨huT, huN⟩ := u128OfNat_spec v hvW
    have hstep := Decimal.sqrtStep_eval sqrtBadScaled (u128OfNat v)
      (by decide) huN
      (by rw [huT]; exact h0) (by rw [huT]; exact hdiv)
      (by rw [huT]; exact hsum)
    rw [huT] at hstep
    rw [if_neg hne] at hstep
    show Decimal.sqrtLoop sqrtBadScaled (n + 1) (u128OfNat v) = none
    simp only [Decimal.sqrtLoop]
    rw [hstep]
    exact ih _ hmem

/-- C4: the Newton-Raphson loop inside `Sqrt` does not terminate on every
128-bit-path input.  On 0.9999999999999999998 the iteration falls into
the 2-cycle {10^19 - 2, 10^19 - 1}: the only exit test is x1 = x, the
averaged estimate oscillates between the two values forever, and `Sqrt`
never returns, whatever fuel the loop is given. -/
theorem C4_sqrt_loop_never_terminates :
    ∀ fuel, Decimal.Sqrt sqrtBadInput fuel = none := by
  intro fuel
  have hstuck : Decimal.sqrtLoop sqrtBadScaled fuel
      (u128OfNat 18446744073709551616) = none :=
    Decimal.sqrtLoop_stuck fuel 18446744073709551616 (by decide)
  have hU : Decimal.sqrtU128 sqrtBadInput fuel = none := by
    have e : Decimal.sqrtU128 sqrtBadInput fuel =
        (match Decimal.sqrtLoop sqrtBadScaled fuel
            (u128OfNat 18446744073709551616) with
         | none => none
         | some (.error err) => some (.error err)
         | some (.ok x) =>
           some (.ok (Decimal.newDecimal false (bintFromU128 x)
             defaultPrec))) := rfl
    rw [e, hstuck]
  unfold Decimal.Sqrt
  rw [if_neg (by decide), if_neg (by decide), if_neg (by decide),
    if_neg (by decide)]
  rw [hU]

/-! ### C5: the canonical-zero invariant -/

theorem Decimal.newDecimal_canonical (n : Bool) (c : bint) (p : Nat) :
    (Decimal.newDecimal n c p).Canonical := by
  unfold Decimal.newDecimal
  by_cases h : c.IsZero = true
  · rw [if_pos h]
    intro _
    exact ⟨rfl, rfl⟩
  · rw [if_neg h]
    intro hz
    exfalso
    apply h
    have hz2 : c.toNat = 0 := hz
    simp [bint.IsZero, hz2]

theorem Decimal.add_canonical (d e : Decimal) : (d.Add e).Canonical := by
  unfold Decimal.Add
  dsimp only
  repeat' split
  all_goals exact Decimal.newDecimal_canonical _ _ _

theorem Decimal.sub_canonical (d e : Decimal) : (d.Sub e).Canonical := by
  unfold Decimal.Sub
  dsimp only
  repeat' split
  all_goals exact Decimal.newDecimal_canonical _ _ _

theorem Decimal.mul_canonical (d e : Decimal) : (d.Mul e).Canonical := by
  unfold Decimal.Mul
  dsimp only
  split
  · rename_i v heq
    unfold Decimal.tryMulU128 at heq
    dsimp only at heq
    repeat' split at heq
    all_goals first
      | (rw [Except.ok.injEq] at heq
         subst heq
         exact Decimal.newDecimal_canonical _ _ _)
      | exact absurd heq (by simp)
  · repeat' split
    all_goals exact Decimal.newDecimal_canonical _ _ _

theorem Decimal.div_canonical (d e q : Decimal) (h : d.Div e = .ok q) :
    q.Canonical := by
  unfold Decimal.Div at h
  dsimp only at h
  split at h
  · exact absurd h (by simp)
  · split at h
    · rename_i q2 heq
      rw [Except.ok.injEq] at h
      subst h
      unfold Decimal.tryDivU128 at heq
      dsimp only at heq
      repeat' split at heq
      all_goals first
        | (rw [Except.ok.injEq] at heq
           subst heq
           exact Decimal.newDecimal_canonical _ _ _)
        | exact absurd heq (by simp)
    · rw [Except.ok.injEq] at h
      subst h
      exact Decimal.newDecimal_canonical _ _ _

theorem Decimal.quoRem_canonical (d e q r : Decimal)
    (h : d.QuoRem e = .ok (q, r)) : q.Canonical ∧ r.Canonical := by
  unfold Decimal.QuoRem at h
  split at h
  · exact absurd h (by simp)
  · split at h
    · rename_i qr heq
      rw [Except.ok.injEq] at h
      subst h
      unfold Decimal.tryQuoRemU128 at heq
      dsimp only at heq
      repeat' split at heq
      all_goals first
        | (rw [Except.ok.injEq, Prod.mk.injEq] at heq
           obtain ⟨h1, h2⟩ := heq
           subst h1
           subst h2
           exact ⟨Decimal.newDecimal_canonical _ _ _,
             Decimal.newDecimal_canonical _ _ _⟩)
        | exact absurd heq (by simp)
    · rw [Except.ok.injEq] at h
      unfold Decimal.quoRemBig at h
      dsimp only at h
      rw [Prod.mk.injEq] at h
      obtain ⟨h1, h2⟩ := h
      subst h1
      subst h2
      exact ⟨Decimal.newDecimal_canonical _ _ _,
        Decimal.newDecimal_canonical _ _ _⟩

theorem Decimal.mod_canonical (d e r : Decimal) (h : d.Mod e = .ok r) :
    r.Canonical := by
  unfold Decimal.Mod at h
  cases hq : d.QuoRem e with
  | error err => rw [hq] at h; exact absurd h (by simp [Except.map])
  | ok qr =>
    rw [hq] at h
    simp only [Except.map] at h
    rw [Except.ok.injEq] at h
    subst h
    exact (Decimal.quoRem_canonical d e qr.1 qr.2 (by rw [hq])).2

theorem Decimal.roundBank_canonical (d : Decimal) (p : Nat) (hd : d.Canonical) :
    (d.RoundBank p).Canonical := by
  unfold Decimal.RoundBank
  split
  · exact hd
  · dsimp only
    split
    · rename_i v heq
      repeat' split at heq
      all_goals first
        | (rw [Option.some.injEq] at heq
           subst heq
           exact Decimal.newDecimal_canonical _ _ _)
        | exact absurd heq (by simp)
    · exact Decimal.newDecimal_canonical _ _ _

theorem Decimal.roundAwayFromZero_canonical (d : Decimal) (p : Nat)
    (hd : d.Canonical) : (d.RoundAwayFromZero p).Canonical := by
  unfold Decimal.RoundAwayFromZero
  split
  · exact hd
  · dsimp only
    split
    · rename_i v heq
      repeat' split at heq
      all_goals first
        | (rw [Option.some.injEq] at heq
           subst heq
           exact Decimal.newDecimal_canonical _ _ _)
        | exact absurd heq (by simp)
    · exact Decimal.newDecimal_canonical _ _ _

theorem Decimal.roundHAZ_canonical (d : Decimal) (p : Nat)
    (hd : d.Canonical) : (d.RoundHAZ p).Canonical := by
  unfold Decimal.RoundHAZ
  split
  · exact hd
  · dsimp only
    split
    · rename_i v heq
      repeat' split at heq
      all_goals first
        | (rw [Option.some.injEq] at heq
           subst heq
           exact Decimal.newDecimal_canonical _ _ _)
        | exact absurd heq (by simp)
    · exact Decimal.newDecimal_canonical _ _ _

theorem Decimal.roundHTZ_canonical (d : Decimal) (p : Nat)
    (hd : d.Canonical) : (d.RoundHTZ p).Canonical := by
  unfold Decimal.RoundHTZ
  split
  · exact hd
  · dsimp only
    split
    · rename_i v heq
      repeat' split at heq
      all_goals first
        | (rw [Option.some.injEq] at heq
           subst heq
           exact Decimal.newDecimal_canonical _ _ _)
        | exact absurd heq (by simp)
    · exact Decimal.newDecimal_canonical _ _ _

theorem Decimal.floor_canonical (d : Decimal) (hd : d.Canonical) :
    d.Floor.Canonical := by
  unfold Decimal.Floor
  split
  · exact hd
  · dsimp only
    split
    · rename_i v heq
      repeat' split at heq
      all_goals first
        | (rw [Option.some.injEq] at heq
           subst heq
           exact Decimal.newDecimal_canonical _ _ _)
        | exact absurd heq (by simp)
    · exact Decimal.newDecimal_canonical _ _ _

theorem Decimal.ceil_canonical (d : Decimal) (hd : d.Canonical) :
    d.Ceil.Canonical := by
  unfold Decimal.Ceil
  split
  · exact hd
  · dsimp only
    split
    · rename_i v heq
      repeat' split at heq
      all_goals first
        | (rw [Option.some.injEq] at heq
           subst heq
           exact Decimal.newDecimal_canonical _ _ _)
        | exact absurd heq (by simp)
    · exact Decimal.newDecimal_canonical _ _ _

theorem Decimal.trunc_canonical (d : Decimal) (p : Nat) (hd : d.Canonical) :
    (d.Trunc p).Canonical := by
  unfold Decimal.Trunc
  split
  · exact hd
  · dsimp only
    split
    · exact Decimal.newDecimal_canonical _ _ _
    · split
      · intro _
        exact ⟨rfl, rfl⟩
      · exact Decimal.newDecimal_canonical _ _ _

theorem Decimal.neg_canonical (d : Decimal) : d.Neg.Canonical :=
  Decimal.newDecimal_canonical _ _ _

theorem Decimal.abs_canonical (d : Decimal) : d.Abs.Canonical :=
  Decimal.newDecimal_canonical _ _ _

theorem Decimal.newFromHiLo_canonical (n : Bool) (hi lo p : Nat) (d : Decimal)
    (h : Decimal.NewFromHiLo n hi lo p = .ok d) : d.Canonical := by
  unfold Decimal.NewFromHiLo at h
  split at h
  · exact absurd h (by simp)
  · rw [Except.ok.injEq] at h
    subst h
    exact Decimal.newDecimal_canonical _ _ _

theorem Decimal.newFromUint64_canonical (c p : Nat) (d : Decimal)
    (h : Decimal.NewFromUint64 c p = .ok d) : d.Canonical := by
  unfold Decimal.NewFromUint64 at h
  split at h
  · exact absurd h (by simp)
  · rw [Except.ok.injEq] at h
    subst h
    exact Decimal.newDecimal_canonical _ _ _

theorem Decimal.newFromInt64_canonical (c : Int) (p : Nat) (d : Decimal)
    (h : Decimal.NewFromInt64 c p = .ok d) : d.Canonical := by
  unfold Decimal.NewFromInt64 at h
  split at h
  · exact absurd h (by simp)
  · rw [Except.ok.injEq] at h
    subst h
    exact Decimal.newDecimal_canonical _ _ _

theorem parse_canonical (s : String) (d : Decimal)
    (h : Parse s = .ok d) : d.Canonical := by
  unfold Parse parseBytes at h
  cases hpb : parseBint s.data with
  | error err => rw [hpb] at h; exact absurd h (by simp [Except.map])
  | ok t =>
    rw [hpb] at h
    simp only [Except.map] at h
    rw [Except.ok.injEq] at h
    subst h
    exact Decimal.newDecimal_canonical _ _ _

/-- C5: every Decimal produced by the public constructors, the parser and
the arithmetic and rounding operations is canonical: a zero coefficient
comes with a false sign flag and zero precision (all zeros collapse to the
one canonical Zero).  Operations that can return their input unchanged
(rounding at a precision at or above the operand's) preserve canonicity
of that input. -/
theorem C5_canonical_zero_invariant :
    (∀ (n : Bool) (hi lo p : Nat) (d : Decimal),
        Decimal.NewFromHiLo n hi lo p = .ok d → d.Canonical) ∧
    (∀ (c p : Nat) (d : Decimal),
        Decimal.NewFromUint64 c p = .ok d → d.Canonical) ∧
    (∀ (c : Int) (p : Nat) (d : Decimal),
        Decimal.NewFromInt64 c p = .ok d → d.Canonical) ∧
    (∀ (s : String) (d : Decimal), Parse s = .ok d → d.Canonical) ∧
    (∀ d e : Decimal, (d.Add e).Canonical) ∧
    (∀ d e : Decimal, (d.Sub e).Canonical) ∧
    (∀ d e : Decimal, (d.Mul e).Canonical) ∧
    (∀ d e q : Decimal, d.Div e = .ok q → q.Canonical) ∧
    (∀ d e q r : Decimal, d.QuoRem e = .ok (q, r) → q.Canonical ∧ r.Canonical) ∧
    (∀ d e r : Decimal, d.Mod e = .ok r → r.Canonical) ∧
    (∀ (d : Decimal) (p : Nat), d.Canonical → (d.RoundBank p).Canonical) ∧
    (∀ (d : Decimal) (p : Nat), d.Canonical →
        (d.RoundAwayFromZero p).Canonical) ∧
    (∀ (d : Decimal) (p : Nat), d.Canonical → (d.RoundHAZ p).Canonical) ∧
    (∀ (d : Decimal) (p : Nat), d.Canonical → (d.RoundHTZ p).Canonical) ∧
    (∀ d : Decimal, d.Canonical → d.Floor.Canonical) ∧
    (∀ d : Decimal, d.Canonical → d.Ceil.Canonical) ∧
    (∀ (d : Decimal) (p : Nat), d.Canonical → (d.Trunc p).Canonical) ∧
    (∀ d : Decimal, d.Neg.Canonical) ∧
    (∀ d : Decimal, d.Abs.Canonical) :=
  ⟨Decimal.newFromHiLo_canonical, Decimal.newFromUint64_canonical,
   Decimal.newFromInt64_canonical, parse_canonical, Decimal.add_canonical,
   Decimal.sub_canonical, Decimal.mul_canonical, Decimal.div_canonical,
   Decimal.quoRem_canonical, Decimal.mod_canonical,
   Decimal.roundBank_canonical, Decimal.roundAwayFromZero_canonical,
   Decimal.roundHAZ_canonical, Decimal.roundHTZ_canonical,
   Decimal.floor_canonical, Decimal.ceil_canonical, Decimal.trunc_canonical,
   Decimal.neg_canonical, Decimal.abs_canonical⟩

/-- C5 witness: the invariant theorem applied at the parsed value 1.5
and at RoundBank(1.5, 0). -/
theorem C5_witness :
    (⟨bintFromU64 15, false, 1⟩ : Decimal).Canonical ∧
    ((⟨bintFromU64 15, false, 1⟩ : Decimal).RoundBank 0).Canonical :=
  ⟨C5_canonical_zero_invariant.2.2.2.1 "1.5" ⟨bintFromU64 15, false, 1⟩ rfl,
   C5_canonical_zero_invariant.2.2.2.2.2.2.2.2.2.2.1
     ⟨bintFromU64 15, false, 1⟩ 0 (by decide)⟩

end Qntx
